import Mathlib

set_option maxHeartbeats 1000000

/-!
Shallow embedding of the QuarkHelperforZetoro consistency core:
the SQLite-backed `CacheIndex` (src/quarkdav/cache/db.py), the
`FilesystemQuarkClient` storage backend (src/quarkdav/quark_client/api.py),
and the `ResourceManager` (src/quarkdav/webdav/resource.py).

Modelling conventions:
* Machine strings are Lean `String`s; byte sequences are `List Nat`.
* The MD5 digest (`hashlib.md5`, via `md5_file`/`md5_hash` in
  src/quarkdav/quark_client/utils.py) is an opaque content digest; it is
  carried as an explicit function field `md5fn` of the manager state, so
  every theorem holds for an arbitrary digest function.
* Python `datetime` values are modelled by the `DT` structure below with
  executable `isoformat`/`fromisoformat` translations.
* The filesystem (local mirror and filesystem-backend namespace) is one
  flat world `FS` keyed by slash-separated path strings.
-/

/-- Python `s.strip("/")`: drop leading and trailing `'/'` characters. -/
def pyStrip (s : String) : String :=
  ⟨(s.data.dropWhile (· == '/')).rdropWhile (· == '/')⟩

/-- Python `s.lstrip("./")`: drop leading characters belonging to `{'.', '/'}`. -/
def pyLstripDotSlash (s : String) : String :=
  ⟨s.data.dropWhile (fun c => c == '.' || c == '/')⟩

/-- `Path(root) / rel` for an already-clean relative path (`rel = ""` keeps `root`). -/
def pjoin (root rel : String) : String :=
  if rel = "" then root else root ++ "/" ++ rel

/-- Last path segment (basename). -/
def lastSeg (p : String) : String :=
  ⟨((p.data.reverse.takeWhile (· ≠ '/'))).reverse⟩

/-- `Path(p).parent` for relative-style strings; a path without `'/'` gets parent `""`. -/
def parentOf (p : String) : String :=
  match p.data.reverse.dropWhile (· ≠ '/') with
  | [] => ""
  | _ :: rest => ⟨rest.reverse⟩

/-- First path segment of a relative string. -/
def firstSeg (s : String) : String :=
  ⟨s.data.takeWhile (· ≠ '/')⟩

def chainAux : List String → String → List String
  | [], _ => []
  | seg :: rest, acc =>
    let cur := if acc = "" then seg else acc ++ "/" ++ seg
    cur :: chainAux rest cur

/-- `"…".split("/")` at the char-list level (separator kept semantics of
Python `str.split(sep)`: empty pieces preserved). -/
def splitSeg : List Char → List Char → List (List Char)
  | [], acc => [acc.reverse]
  | c :: cs, acc =>
    if c = '/' then acc.reverse :: splitSeg cs [] else splitSeg cs (c :: acc)

/-- All ancestors of `p` (segment prefixes), `p` itself included; the set of
directories `mkdir(parents=True)` creates. -/
def ancestorChain (p : String) : List String :=
  chainAux ((splitSeg p.data []).map (fun l => (⟨l⟩ : String))) ""

/-- SQLite folds ASCII `A`-`Z` for the default `LIKE`. -/
def asciiLower (c : Char) : Char :=
  if 'A' ≤ c ∧ c ≤ 'Z' then Char.ofNat (c.toNat + 32) else c

/-- Character match of default SQLite `LIKE`: ASCII case-insensitive. -/
def likeCharEq (p c : Char) : Bool :=
  asciiLower p == asciiLower c

/-- Default-collation SQLite `LIKE` matcher: `%` matches any run, `_` one
character, other pattern characters match ASCII case-insensitively.  Each
recursive call shrinks pattern-length + text-length, so the fuel of the
`sqlLike` wrapper below always suffices. -/
def sqlLikeF : Nat → List Char → List Char → Bool
  | 0, _, _ => false
  | _ + 1, [], [] => true
  | _ + 1, [], _ :: _ => false
  | f + 1, '%' :: ps, cs =>
    sqlLikeF f ps cs ||
      (match cs with
       | [] => false
       | _ :: cs' => sqlLikeF f ('%' :: ps) cs')
  | f + 1, '_' :: ps, cs =>
    (match cs with
     | [] => false
     | _ :: cs' => sqlLikeF f ps cs')
  | f + 1, p :: ps, cs =>
    (match cs with
     | [] => false
     | c :: cs' => likeCharEq p c && sqlLikeF f ps cs')

def sqlLike (ps cs : List Char) : Bool :=
  sqlLikeF (ps.length + cs.length + 1) ps cs

theorem sqlLikeF_nil_nil (f : Nat) (h : 1 ≤ f) : sqlLikeF f [] [] = true := by
  cases f with
  | zero => omega
  | succ f => rfl

theorem sqlLikeF_percent (f : Nat) (cs : List Char) (h : cs.length + 2 ≤ f) :
    sqlLikeF f ['%'] cs = true := by
  induction f generalizing cs with
  | zero => omega
  | succ f ih =>
    cases cs with
    | nil =>
      rw [sqlLikeF, sqlLikeF_nil_nil f (by simp at h; omega)]
      rfl
    | cons c cs =>
      rw [sqlLikeF]
      refine Bool.or_eq_true_iff.mpr (Or.inr ?_)
      exact ih cs (by simp at h ⊢; omega)

/-- `LIKE '%'` accepts every string. -/
theorem sqlLike_percent_any (cs : List Char) : sqlLike ['%'] cs = true := by
  unfold sqlLike
  exact sqlLikeF_percent _ _ (by simp; omega)

/-- Model of Python `datetime` restricted to fixed-offset time zones
(offset in minutes); exactly the shape `datetime.now(timezone.utc)` and
test-constructed datetimes inhabit. -/
structure DT where
  year : Nat
  month : Nat
  day : Nat
  hour : Nat
  minute : Nat
  second : Nat
  usec : Nat
  tzMin : Option Int
deriving DecidableEq, Repr

/-- Offset sanity for the textual form: Python constrains utc offsets to
strictly less than a day (here: printable with two hour digits). -/
def tzOk : Option Int → Prop
  | none => True
  | some o => o.natAbs < 6000

instance : (t : Option Int) → Decidable (tzOk t)
  | none => .isTrue trivial
  | some _ => inferInstanceAs (Decidable (_ < _))

/-- Field ranges enforced by Python `datetime`'s own constructor (we only need
the bounds that make the fixed-width textual form invertible). -/
def DTValid (d : DT) : Prop :=
  d.year < 10000 ∧ d.month < 100 ∧ d.day < 100 ∧ d.hour < 100 ∧
    d.minute < 100 ∧ d.second < 100 ∧ d.usec < 1000000 ∧ tzOk d.tzMin

instance (d : DT) : Decidable (DTValid d) := by
  unfold DTValid
  exact inferInstance

def dchar (n : Nat) : Char := Char.ofNat (48 + n)

def pad2 (n : Nat) : List Char := [dchar (n / 10), dchar (n % 10)]

def pad4 (n : Nat) : List Char := pad2 (n / 100) ++ pad2 (n % 100)

def pad6 (n : Nat) : List Char :=
  pad2 (n / 10000) ++ pad2 (n / 100 % 100) ++ pad2 (n % 100)

/-- Character list of `datetime.isoformat()`: `YYYY-MM-DDTHH:MM:SS`, the
`.ffffff` part only when microseconds are nonzero, and `±HH:MM` for an aware
datetime. -/
def isoChars (d : DT) : List Char :=
  pad4 d.year ++ '-' :: pad2 d.month ++ '-' :: pad2 d.day ++
    'T' :: pad2 d.hour ++ ':' :: pad2 d.minute ++ ':' :: pad2 d.second ++
    (if d.usec = 0 then [] else '.' :: pad6 d.usec) ++
    (match d.tzMin with
     | none => []
     | some o =>
       (if o < 0 then '-' else '+') ::
         pad2 (o.natAbs / 60) ++ ':' :: pad2 (o.natAbs % 60))

/-- Model of `datetime.isoformat()`. -/
def isoformat (d : DT) : String := ⟨isoChars d⟩

def parse2 (c1 c2 : Char) : Nat := (c1.toNat - 48) * 10 + (c2.toNat - 48)

/-- Offset suffix accepted by `datetime.fromisoformat` (`±HH:MM`); junk tails
parse to `none` (Python would raise `ValueError`; such texts never occur in
reachable database rows). -/
def parseTz : List Char → Option Int
  | [] => none
  | sg :: a :: b :: ':' :: c :: d :: [] =>
    some ((if sg == '-' then (-1 : Int) else 1) * (parse2 a b * 60 + parse2 c d))
  | _ => none

/-- Fractional-seconds-and-offset tail of `datetime.fromisoformat`. -/
def parseTail (cs : List Char) : Nat × Option Int :=
  match cs with
  | '.' :: u1 :: u2 :: u3 :: u4 :: u5 :: u6 :: rest =>
    (parse2 u1 u2 * 10000 + parse2 u3 u4 * 100 + parse2 u5 u6, parseTz rest)
  | rest => (0, parseTz rest)

/-- Model of `datetime.fromisoformat` over the texts `isoformat` emits;
malformed texts give a zero datetime (Python raises; unreachable here). -/
def fromIso (s : String) : DT :=
  match s.data with
  | y1 :: y2 :: y3 :: y4 :: '-' :: m1 :: m2 :: '-' :: d1 :: d2 ::
      'T' :: h1 :: h2 :: ':' :: n1 :: n2 :: ':' :: s1 :: s2 :: rest =>
    let tl := parseTail rest
    ⟨parse2 y1 y2 * 100 + parse2 y3 y4, parse2 m1 m2, parse2 d1 d2,
      parse2 h1 h2, parse2 n1 n2, parse2 s1 s2, tl.1, tl.2⟩
  | _ => ⟨0, 0, 0, 0, 0, 0, 0, none⟩

theorem parseTail_not_dot (c : Char) (cs : List Char) (h : c ≠ '.') :
    parseTail (c :: cs) = (0, parseTz (c :: cs)) := by
  rw [parseTail.eq_def]
  split
  · rename_i heq
    injection heq with h1 _
    exact absurd h1 h
  · rfl

theorem parse2_pad2 : ∀ n < 100, parse2 (dchar (n / 10)) (dchar (n % 10)) = n := by
  decide

/-- The timestamp text round-trip: parsing the emitted ISO text recovers the
datetime (fields within `datetime`'s own ranges). -/
theorem fromIso_isoformat (d : DT) (h : DTValid d) : fromIso (isoformat d) = d := by
  obtain ⟨y, mo, dy, hr, mi, se, us, tz⟩ := d
  obtain ⟨hy, hm, hd, hh, hn, hs, hu, htz⟩ := h
  simp only at hy hm hd hh hn hs hu htz
  have p2y1 := parse2_pad2 (y / 100) (by omega)
  have p2y2 := parse2_pad2 (y % 100) (by omega)
  have p2m := parse2_pad2 mo hm
  have p2d := parse2_pad2 dy hd
  have p2h := parse2_pad2 hr hh
  have p2n := parse2_pad2 mi hn
  have p2s := parse2_pad2 se hs
  have p2u1 := parse2_pad2 (us / 10000) (by omega)
  have p2u2 := parse2_pad2 (us / 100 % 100) (by omega)
  have p2u3 := parse2_pad2 (us % 100) (by omega)
  cases tz with
  | none =>
    by_cases hus : us = 0
    · simp only [isoformat, isoChars, pad4, pad2, hus, ite_true, List.cons_append,
        List.nil_append, List.append_nil]
      simp only [fromIso, parseTail, parseTz]
      simp only [p2y1, p2y2, p2m, p2d, p2h, p2n, p2s, DT.mk.injEq]
      exact ⟨by omega, trivial, trivial, trivial, trivial, trivial, trivial, trivial⟩
    · simp only [isoformat, isoChars, pad4, pad2, pad6, hus, ite_false, List.cons_append,
        List.nil_append, List.append_nil]
      simp only [fromIso, parseTail, parseTz]
      simp only [p2y1, p2y2, p2m, p2d, p2h, p2n, p2s, p2u1, p2u2, p2u3, DT.mk.injEq]
      exact ⟨by omega, trivial, trivial, trivial, trivial, trivial, by omega, trivial⟩
  | some o =>
    have ho6 : o.natAbs < 6000 := htz
    have p2o1 := parse2_pad2 (o.natAbs / 60) (by omega)
    have p2o2 := parse2_pad2 (o.natAbs % 60) (by omega)
    have ptd : ∀ cs, parseTail ('-' :: cs) = (0, parseTz ('-' :: cs)) :=
      fun cs => parseTail_not_dot _ _ (by decide)
    have ptp : ∀ cs, parseTail ('+' :: cs) = (0, parseTz ('+' :: cs)) :=
      fun cs => parseTail_not_dot _ _ (by decide)
    by_cases ho : o < 0
    · by_cases hus : us = 0
      · simp only [isoformat, isoChars, pad4, pad2, hus, ho, ite_true, List.cons_append,
          List.nil_append, List.append_nil]
        simp only [fromIso, ptd, parseTz]
        simp only [p2y1, p2y2, p2m, p2d, p2h, p2n, p2s, p2o1, p2o2, DT.mk.injEq]
        refine ⟨by omega, trivial, trivial, trivial, trivial, trivial, trivial, ?_⟩
        simp only [Option.some.injEq, show (('-' : Char) == '-') = true from rfl,
          eq_self_iff_true, if_true]
        omega
      · simp only [isoformat, isoChars, pad4, pad2, pad6, hus, ho, ite_true, ite_false,
          List.cons_append, List.nil_append, List.append_nil]
        simp only [fromIso, parseTail, parseTz]
        simp only [p2y1, p2y2, p2m, p2d, p2h, p2n, p2s, p2u1, p2u2, p2u3, p2o1, p2o2,
          DT.mk.injEq]
        refine ⟨by omega, trivial, trivial, trivial, trivial, trivial, by omega, ?_⟩
        simp only [Option.some.injEq, show (('-' : Char) == '-') = true from rfl,
          eq_self_iff_true, if_true]
        omega
    · by_cases hus : us = 0
      · simp only [isoformat, isoChars, pad4, pad2, hus, ho, ite_true, ite_false,
          List.cons_append, List.nil_append, List.append_nil]
        simp only [fromIso, ptp, parseTz]
        simp only [p2y1, p2y2, p2m, p2d, p2h, p2n, p2s, p2o1, p2o2, DT.mk.injEq]
        refine ⟨by omega, trivial, trivial, trivial, trivial, trivial, trivial, ?_⟩
        simp only [Option.some.injEq, show (('+' : Char) == '-') = false from rfl,
          Bool.false_eq_true, if_false]
        omega
      · simp only [isoformat, isoChars, pad4, pad2, pad6, hus, ho, ite_true, ite_false,
          List.cons_append, List.nil_append, List.append_nil]
        simp only [fromIso, parseTail, parseTz]
        simp only [p2y1, p2y2, p2m, p2d, p2h, p2n, p2s, p2u1, p2u2, p2u3, p2o1, p2o2,
          DT.mk.injEq]
        refine ⟨by omega, trivial, trivial, trivial, trivial, trivial, by omega, ?_⟩
        simp only [Option.some.injEq, show (('+' : Char) == '-') = false from rfl,
          Bool.false_eq_true, if_false]
        omega

/-- One row of the `cache` table (schema in `CacheIndex._ensure_schema`):
`path TEXT PRIMARY KEY, is_dir INTEGER, size INTEGER, etag TEXT NULL,
updated_at TEXT`.  `is_dir` is written as `1/0` and read back through
`bool(...)`, so it is carried as `Bool`; `size` is a Python int (`Int` here,
the 64-bit SQLite bound is not modelled). -/
structure CacheRow where
  path : String
  is_dir : Bool
  size : Int
  etag : Option String
  updatedAt : String
deriving DecidableEq, Repr

/-- The `CacheEntry` dataclass of src/quarkdav/cache/db.py. -/
structure CacheEntry where
  path : String
  is_dir : Bool
  size : Int
  etag : Option String
  updated_at : DT
deriving DecidableEq, Repr

/-- Row written by `CacheIndex.upsert` (`updated_at.isoformat()`). -/
def rowOfEntry (e : CacheEntry) : CacheRow :=
  ⟨e.path, e.is_dir, e.size, e.etag, isoformat e.updated_at⟩

/-- Entry materialized by the readers (`datetime.fromisoformat(row)`). -/
def entryOfRow (r : CacheRow) : CacheEntry :=
  ⟨r.path, r.is_dir, r.size, r.etag, fromIso r.updatedAt⟩

/-- The table state: the list of rows.  The `path` PRIMARY KEY makes reachable
states have pairwise distinct paths (`idxNodup`, proved as claim C9). -/
abbrev DB := List CacheRow

/-- `CacheIndex.upsert`: `INSERT ... ON CONFLICT(path) DO UPDATE`; the
conflicting row is updated in place, otherwise the row is appended. -/
def cacheUpsert (db : DB) (e : CacheEntry) : DB :=
  if db.any (fun r => r.path == e.path) then
    db.map (fun r => if r.path == e.path then rowOfEntry e else r)
  else
    db ++ [rowOfEntry e]

/-- `CacheIndex.delete`: `DELETE FROM cache WHERE path = ?`. -/
def cacheDelete (db : DB) (p : String) : DB :=
  db.filter (fun r => !(r.path == p))

/-- `CacheIndex.get`: `SELECT * FROM cache WHERE path = ?`, `fetchone()`:
the first matching row, converted back to a `CacheEntry`. -/
def cacheGet (db : DB) (p : String) : Option CacheEntry :=
  match db with
  | [] => none
  | r :: rs => if r.path == p then some (entryOfRow r) else cacheGet rs p

/-- `path = ? OR path LIKE ?` fetch shared by `list_children`/`list_subtree`;
`pat` is the LIKE pattern (`base ++ "%"`, which is `"%"` when `base = ""`). -/
def sqlFetch (db : DB) (normalized : String) (pat : String) : DB :=
  db.filter (fun r => r.path == normalized || sqlLike pat.data r.path.data)

/-- The `remainder` local of `CacheIndex.list_children`:
`child_path[len(base):] if base and child_path.startswith(base) else child_path`
(characters, as Python slices strings by character). -/
def childRem (base pth : String) : List Char :=
  if !(base == "") && base.data.isPrefixOf pth.data then pth.data.drop base.data.length
  else pth.data

/-- The Python loop body of `CacheIndex.list_children`: skip the prefix's own
row, strip `base`, reject the row when the remainder is empty or still has a
`/`, and deduplicate through the `seen` set. -/
def childLoop (normalized base : String) : DB → List String → List CacheEntry
  | [], _ => []
  | r :: rs, seen =>
    if !(normalized == "") && r.path == normalized then
      childLoop normalized base rs seen
    else if (childRem base r.path).contains '/' || (childRem base r.path).isEmpty then
      childLoop normalized base rs seen
    else if seen.any (· == r.path) then
      childLoop normalized base rs seen
    else
      entryOfRow r :: childLoop normalized base rs (r.path :: seen)

/-- `CacheIndex.list_children`. -/
def listChildren (db : DB) (pfx : String) : List CacheEntry :=
  let normalized := pyStrip pfx
  let base := if normalized == "" then "" else normalized ++ "/"
  childLoop normalized base (sqlFetch db normalized (base ++ "%")) []

/-- `CacheIndex.list_subtree`: fetch with `base ++ "%"` and drop only the
exact `normalized` row. -/
def listSubtree (db : DB) (p : String) : List CacheEntry :=
  let normalized := pyStrip p
  let base := if normalized == "" then "" else normalized ++ "/"
  ((sqlFetch db normalized (base ++ "%")).filter
    (fun r => !(r.path == normalized))).map entryOfRow

/-- Whether the table satisfies its PRIMARY KEY shape: pairwise distinct paths. -/
def idxNodup (db : DB) : Prop := (db.map (fun r => r.path)).Nodup

instance (db : DB) : Decidable (idxNodup db) := by
  unfold idxNodup
  exact List.nodupDecidable _

theorem idxNodup_upsert (db : DB) (e : CacheEntry) (h : idxNodup db) :
    idxNodup (cacheUpsert db e) := by
  unfold cacheUpsert
  split
  · rename_i hany
    unfold idxNodup at h ⊢
    have : (db.map fun r => if r.path == e.path then rowOfEntry e else r).map
        (fun r => r.path) = db.map (fun r => r.path) := by
      rw [List.map_map]
      apply List.map_congr_left
      intro r _
      by_cases hr : r.path = e.path <;> simp [Function.comp, rowOfEntry, hr]
    rw [this]
    exact h
  · rename_i hany
    unfold idxNodup at h ⊢
    rw [List.map_append]
    simp only [List.map_cons, List.map_nil, rowOfEntry]
    rw [List.nodup_append]
    refine ⟨h, List.nodup_singleton _, ?_⟩
    intro x hx
    simp only [List.mem_singleton]
    intro hxe
    apply hany
    rw [List.any_eq_true]
    obtain ⟨r, hr, hrp⟩ := List.mem_map.mp hx
    exact ⟨r, hr, by simp [hrp, hxe]⟩

theorem idxNodup_delete (db : DB) (p : String) (h : idxNodup db) :
    idxNodup (cacheDelete db p) := by
  unfold cacheDelete idxNodup at *
  exact (List.Sublist.map _ (List.filter_sublist db)).nodup h

theorem cacheGet_cons (r : CacheRow) (rs : DB) (p : String) :
    cacheGet (r :: rs) p = if r.path == p then some (entryOfRow r) else cacheGet rs p := rfl

/-- `get` immediately after `upsert` finds the row just written. -/
theorem cacheGet_upsert_self (db : DB) (e : CacheEntry) :
    cacheGet (cacheUpsert db e) e.path = some (entryOfRow (rowOfEntry e)) := by
  unfold cacheUpsert
  split
  · rename_i hany
    induction db with
    | nil => simp at hany
    | cons a as ih =>
      rw [List.any_cons] at hany
      by_cases ha : a.path = e.path
      · simp [cacheGet, rowOfEntry, ha]
      · rw [List.map_cons, if_neg (by simpa using ha)]
        rw [cacheGet_cons, if_neg (by simpa using ha)]
        apply ih
        rcases Bool.or_eq_true_iff.mp hany with h1 | h1
        · exact absurd (beq_iff_eq.mp h1) ha
        · exact h1
  · induction db with
    | nil => simp [cacheGet, rowOfEntry]
    | cons a as ih =>
      rename_i hany
      rw [List.any_cons, Bool.or_eq_true_iff, not_or] at hany
      rw [List.cons_append, cacheGet_cons, if_neg (by simpa using hany.1)]
      exact ih (by simpa using hany.2)

/-- `get` at a different path is unaffected by `upsert`. -/
theorem cacheGet_upsert_other (db : DB) (e : CacheEntry) (q : String)
    (h : q ≠ e.path) : cacheGet (cacheUpsert db e) q = cacheGet db q := by
  unfold cacheUpsert
  split
  · rename_i hany
    clear hany
    induction db with
    | nil => rfl
    | cons a as ih =>
      rw [List.map_cons]
      by_cases ha : a.path = e.path
      · rw [if_pos (by simpa using ha)]
        rw [cacheGet_cons, if_neg (by simp [rowOfEntry]; exact fun hc => h hc.symm)]
        rw [cacheGet_cons, if_neg (by simp [ha]; exact fun hc => h hc.symm)]
        exact ih
      · rw [if_neg (by simpa using ha)]
        rw [cacheGet_cons, cacheGet_cons]
        by_cases haq : a.path = q
        · rw [if_pos (by simpa using haq), if_pos (by simpa using haq)]
        · rw [if_neg (by simpa using haq), if_neg (by simpa using haq)]
          exact ih
  · rename_i hany
    clear hany
    induction db with
    | nil =>
      rw [List.nil_append, cacheGet_cons, if_neg (by simp [rowOfEntry]; exact fun hc => h hc.symm)]
    | cons a as ih =>
      rw [List.cons_append, cacheGet_cons, cacheGet_cons]
      by_cases haq : a.path = q
      · rw [if_pos (by simpa using haq), if_pos (by simpa using haq)]
      · rw [if_neg (by simpa using haq), if_neg (by simpa using haq)]
        exact ih

/-- `get` after `delete` at the deleted path is `none`. -/
theorem cacheGet_delete_self (db : DB) (p : String) :
    cacheGet (cacheDelete db p) p = none := by
  unfold cacheDelete
  induction db with
  | nil => rfl
  | cons a as ih =>
    by_cases ha : a.path = p
    · rw [List.filter_cons, if_neg (by simpa using ha)]
      exact ih
    · rw [List.filter_cons, if_pos (by simpa using ha)]
      rw [cacheGet_cons, if_neg (by simpa using ha)]
      exact ih

/-- `get` at another path is unaffected by `delete`. -/
theorem cacheGet_delete_other (db : DB) (p q : String) (h : q ≠ p) :
    cacheGet (cacheDelete db p) q = cacheGet db q := by
  unfold cacheDelete
  induction db with
  | nil => rfl
  | cons a as ih =>
    by_cases ha : a.path = p
    · rw [List.filter_cons, if_neg (by simpa using ha)]
      rw [cacheGet_cons, if_neg (by simp [ha]; exact fun hc => h hc.symm)]
      exact ih
    · rw [List.filter_cons, if_pos (by simpa using ha)]
      rw [cacheGet_cons, cacheGet_cons]
      by_cases haq : a.path = q
      · rw [if_pos (by simpa using haq), if_pos (by simpa using haq)]
      · rw [if_neg (by simpa using haq), if_neg (by simpa using haq)]
        exact ih

/-- Flat filesystem world shared by the local mirror and the
`FilesystemQuarkClient` root: files keyed by full path (bytes as `List Nat`),
plus the set of directories that exist.  Directories are only ever created
explicitly (`mkdir(parents=True)`), matching every write path in the code. -/
structure FS where
  files : List (String × List Nat)
  dirs : List String
deriving Repr

def FS.fileAt (fs : FS) (p : String) : Option (List Nat) :=
  (fs.files.find? (fun pr => pr.1 == p)).map (fun pr => pr.2)

def FS.hasFile (fs : FS) (p : String) : Bool :=
  fs.files.any (fun pr => pr.1 == p)

def FS.isDir (fs : FS) (p : String) : Bool :=
  fs.dirs.any (fun d => d == p)

/-- `Path.exists()`. -/
def FS.pexists (fs : FS) (p : String) : Bool :=
  fs.hasFile p || fs.isDir p

/-- Write (create or overwrite) a file. -/
def FS.writeFile (fs : FS) (p : String) (bs : List Nat) : FS :=
  { fs with files := (p, bs) :: fs.files.filter (fun pr => !(pr.1 == p)) }

/-- `Path.unlink()`. -/
def FS.removeFile (fs : FS) (p : String) : FS :=
  { fs with files := fs.files.filter (fun pr => !(pr.1 == p)) }

/-- `mkdir(parents=True, exist_ok=True)`: add the whole ancestor chain. -/
def FS.mkdirParents (fs : FS) (p : String) : FS :=
  { fs with
    dirs := (ancestorChain p).foldl
      (fun ds d => if ds.any (· == d) then ds else ds ++ [d]) fs.dirs }

/-- `mkdir(parents=True, exist_ok=True)` raises when a chain component exists
as a regular file (`FileExistsError`/`NotADirectoryError`). -/
def FS.mkdirConflict (fs : FS) (p : String) : Bool :=
  (ancestorChain p).any fs.hasFile

/-- `shutil.rmtree p`: remove the directory `p` and everything below it. -/
def FS.rmtree (fs : FS) (p : String) : FS :=
  { files := fs.files.filter (fun pr => !((p ++ "/").data.isPrefixOf pr.1.data)),
    dirs := fs.dirs.filter (fun d => !(d == p || (p ++ "/").data.isPrefixOf d.data)) }

def remapPath (src dst q : String) : String :=
  if q == src then dst
  else if (src ++ "/").data.isPrefixOf q.data then ⟨dst.data ++ q.data.drop src.data.length⟩
  else q

/-- `os.rename src dst`: the whole subtree moves; an existing plain file at
`dst` is overwritten.  (A rename into the source's own subtree would raise
`OSError` on a real filesystem; the model performs the remap.  No theorem
below depends on that corner: `shutilMove` already rejects the only
reachable shape of it, see `shutilMove`.) -/
def FS.rename (fs : FS) (src dst : String) : FS :=
  { files := (fs.files.filter (fun pr => !(pr.1 == dst))).map
      (fun pr => (remapPath src dst pr.1, pr.2)),
    dirs := fs.dirs.map (remapPath src dst) }

/-- `shutil.move src dst`: absent source raises; a destination that is an
existing directory redirects to `dst/basename(src)` and raises `shutil.Error`
if that target already exists; otherwise an `os.rename`. -/
def shutilMove (fs : FS) (src dst : String) : Except String FS :=
  if !fs.pexists src then .error "FileNotFoundError"
  else if fs.isDir dst then
    let rd := dst ++ "/" ++ lastSeg src
    if fs.pexists rd then .error "shutil.Error: destination already exists"
    else .ok (fs.rename src rd)
  else .ok (fs.rename src dst)

/-- `shutil.copy2 / open(...).write` of known bytes into `dst`; writing onto
an existing directory is collapsed to the error the surrounding code paths
raise (`copy2` into a directory writes a stray temp-named file and the
follow-up `md5_file(dst)` raises `IsADirectoryError`; none of the claims
touch that partial state). -/
def FS.copy2Into (fs : FS) (dst : String) (bs : List Nat) : Except String FS :=
  if fs.isDir dst then .error "IsADirectoryError"
  else .ok (fs.writeFile dst bs)

/-- Immediate child names of directory `d` (`Path.iterdir()`); scan order
is the model's file/dir list order (the OS order is unspecified). -/
def childNames (fs : FS) (d : String) : List String :=
  let under := fun (q : String) =>
    if (d ++ "/").data.isPrefixOf q.data then
      some (firstSeg ⟨q.data.drop (d.data.length + 1)⟩) else none
  let cands := fs.dirs.filterMap under ++ fs.files.filterMap (fun pr => under pr.1)
  cands.foldl (fun acc n => if acc.any (· == n) then acc else acc ++ [n]) []

/-- `QuarkFileInfo` dataclass of src/quarkdav/quark_client/api.py. -/
structure QuarkFileInfo where
  path : String
  is_dir : Bool
  size : Int
  etag : Option String
deriving DecidableEq, Repr

/-- `ResourceMetadata` dataclass of src/quarkdav/webdav/resource.py. -/
structure ResourceMetadata where
  path : String
  is_dir : Bool
  size : Int
  etag : Option String
  updated_at : DT
deriving DecidableEq, Repr

/-- `CacheEntry(**metadata.__dict__)`. -/
def entryOfMeta (m : ResourceMetadata) : CacheEntry :=
  ⟨m.path, m.is_dir, m.size, m.etag, m.updated_at⟩

/-- Combined state of one `ResourceManager` wired to a
`FilesystemQuarkClient`: the cache table, the filesystem world holding both
the mirror root and the client root, the construction-time collide flag, the
current wall clock (`datetime.now(timezone.utc)` reads it), the digest
function, and call-count instrumentation (`backendCalls` counts every client
method invocation, `mirrorProbes` counts the mirror existence probe in
`stat`). -/
structure MState where
  index : DB
  world : FS
  cacheRoot : String
  clientRoot : String
  rootsCollide : Bool
  now : DT
  md5fn : List Nat → String
  backendCalls : Nat
  mirrorProbes : Nat

/-- `ResourceManager.__init__` composed with `FilesystemQuarkClient.__init__`:
both roots are created, the index table starts empty, and the physical-root
comparison (`Path(client_root).resolve() == cache_root.resolve()`, roots given
in canonical form) is evaluated once, here. -/
def mkResourceManager (cacheRoot clientRoot : String) (now : DT)
    (md5fn : List Nat → String) : MState :=
  { index := []
    world := ((FS.mk [] []).mkdirParents clientRoot).mkdirParents cacheRoot
    cacheRoot := cacheRoot
    clientRoot := clientRoot
    rootsCollide := clientRoot == cacheRoot
    now := now
    md5fn := md5fn
    backendCalls := 0
    mirrorProbes := 0 }

def bumpB (s : MState) : MState := { s with backendCalls := s.backendCalls + 1 }

/-- `FilesystemQuarkClient._resolve`. -/
def clientResolve (s : MState) (rel : String) : String :=
  pjoin s.clientRoot (pyStrip rel)

/-- `FilesystemQuarkClient.ensure_directory` (ancestors created before a
conflicting file component are not tracked on the error path). -/
def clientEnsureDirectory (rel : String) (s : MState) :
    Except String Unit × MState :=
  let s := bumpB s
  let t := clientResolve s rel
  if s.world.mkdirConflict t then (.error "NotADirectoryError", s)
  else (.ok (), { s with world := s.world.mkdirParents t })

/-- `FilesystemQuarkClient.upload_file`. -/
def clientUploadFile (rel : String) (bs : List Nat) (s : MState) :
    Except String QuarkFileInfo × MState :=
  let s := bumpB s
  let dst := clientResolve s rel
  if s.world.mkdirConflict (parentOf dst) then (.error "NotADirectoryError", s)
  else
    let w1 := s.world.mkdirParents (parentOf dst)
    match w1.copy2Into dst bs with
    | .error e => (.error e, { s with world := w1 })
    | .ok w2 =>
      (.ok ⟨rel, false, (bs.length : Int), some (s.md5fn bs)⟩,
        { s with world := w2 })

/-- `FilesystemQuarkClient.download_file` into the absolute path `dstAbs`. -/
def clientDownloadFile (rel : String) (dstAbs : String) (s : MState) :
    Except String Unit × MState :=
  let s := bumpB s
  let src := clientResolve s rel
  if !s.world.pexists src then (.error "FileNotFoundError", s)
  else if s.world.mkdirConflict (parentOf dstAbs) then (.error "NotADirectoryError", s)
  else
    let w1 := s.world.mkdirParents (parentOf dstAbs)
    if w1.isDir src then (.error "IsADirectoryError", { s with world := w1 })
    else
      match w1.copy2Into dstAbs ((w1.fileAt src).getD []) with
      | .error e => (.error e, { s with world := w1 })
      | .ok w2 => (.ok (), { s with world := w2 })

/-- `FilesystemQuarkClient.delete` (tolerant of an absent target). -/
def clientDelete (rel : String) (s : MState) : Unit × MState :=
  let s := bumpB s
  let t := clientResolve s rel
  let w :=
    if s.world.isDir t then s.world.rmtree t
    else if s.world.pexists t then s.world.removeFile t
    else s.world
  ((), { s with world := w })

/-- `FilesystemQuarkClient.move`. -/
def clientMove (relSrc relDst : String) (s : MState) :
    Except String Unit × MState :=
  let s := bumpB s
  let src := clientResolve s relSrc
  let dst := clientResolve s relDst
  if s.world.mkdirConflict (parentOf dst) then (.error "NotADirectoryError", s)
  else
    let w1 := s.world.mkdirParents (parentOf dst)
    match shutilMove w1 src dst with
    | .error e => (.error e, { s with world := w1 })
    | .ok w2 => (.ok (), { s with world := w2 })

/-- `FilesystemQuarkClient.stat`. -/
def clientStat (rel : String) (s : MState) : Option QuarkFileInfo × MState :=
  let s := bumpB s
  let t := clientResolve s rel
  if !s.world.pexists t then (none, s)
  else if s.world.isDir t then (some ⟨rel, true, 0, none⟩, s)
  else
    let bs := (s.world.fileAt t).getD []
    (some ⟨rel, false, (bs.length : Int), some (s.md5fn bs)⟩, s)

/-- `FilesystemQuarkClient.list_directory`.  `item.stat().st_size` of a
directory is filesystem-dependent and modelled as `0`; `iterdir` order is
unspecified and modelled as the world's dirs-then-files scan order.
`str(Path(relative_path) / item.name).lstrip("./")` is modelled for the
already-normalized relative paths the manager passes. -/
def clientListDir (rel : String) (s : MState) :
    Except String (List QuarkFileInfo) × MState :=
  let s := bumpB s
  let d := clientResolve s rel
  if !s.world.pexists d then (.ok [], s)
  else if !s.world.isDir d then (.error "NotADirectoryError", s)
  else
    let mkInfo := fun (n : String) =>
      let item := d ++ "/" ++ n
      let isd := s.world.isDir item
      let bs := (s.world.fileAt item).getD []
      (⟨pyLstripDotSlash (if pyStrip rel == "" then n else pyStrip rel ++ "/" ++ n),
        isd, if isd then 0 else (bs.length : Int),
        if isd then none else some (s.md5fn bs)⟩ : QuarkFileInfo)
    (.ok ((childNames s.world d).map mkInfo), s)

/-- `ResourceManager._cache_path`. -/
def cachePathOf (s : MState) (rel : String) : String := pjoin s.cacheRoot rel

/-- `ResourceManager.ensure_directory`. -/
def ensure_directory (p : String) (s : MState) :
    Except String ResourceMetadata × MState :=
  let n := pyStrip p
  match clientEnsureDirectory n s with
  | (.error e, s1) => (.error e, s1)
  | (.ok (), s1) =>
    let cp := cachePathOf s1 n
    if s1.world.mkdirConflict cp then (.error "NotADirectoryError", s1)
    else
      let s2 := { s1 with world := s1.world.mkdirParents cp }
      let m : ResourceMetadata := ⟨n, true, 0, none, s2.now⟩
      (.ok m, { s2 with index := cacheUpsert s2.index (entryOfMeta m) })

/-- `ResourceManager.put_file` (the upload bytes stand for the temp file at
`data_path`; `shutil.copy2` onto an existing directory is collapsed into the
error the following `md5_file` raises, see `FS.copy2Into`). -/
def put_file (p : String) (data : List Nat) (s : MState) :
    Except String ResourceMetadata × MState :=
  let n := pyStrip p
  let cp := cachePathOf s n
  if s.world.mkdirConflict (parentOf cp) then (.error "NotADirectoryError", s)
  else
    let s1 := { s with world := s.world.mkdirParents (parentOf cp) }
    match s1.world.copy2Into cp data with
    | .error e => (.error e, s1)
    | .ok w2 =>
      let s2 := { s1 with world := w2 }
      let finish := fun (s3 : MState) =>
        if s3.world.isDir cp then ((.error "IsADirectoryError" :
            Except String ResourceMetadata), s3)
        else
          match s3.world.fileAt cp with
          | none => (.error "FileNotFoundError", s3)
          | some bs =>
            let m : ResourceMetadata :=
              ⟨n, false, (bs.length : Int), some (s3.md5fn bs), s3.now⟩
            (.ok m, { s3 with index := cacheUpsert s3.index (entryOfMeta m) })
      if s2.rootsCollide then finish s2
      else
        match clientUploadFile n data s2 with
        | (.error e, s3) => (.error e, s3)
        | (.ok _, s3) => finish s3

/-- `ResourceManager.get_file` (returns the mirror path). -/
def get_file (p : String) (s : MState) : Except String String × MState :=
  let n := pyStrip p
  let cp := cachePathOf s n
  if s.world.pexists cp then
    if s.world.isDir cp then (.error "IsADirectoryError", s)
    else (.ok cp, s)
  else if s.world.mkdirConflict (parentOf cp) then (.error "NotADirectoryError", s)
  else
    let s1 := { s with world := s.world.mkdirParents (parentOf cp) }
    match clientDownloadFile n cp s1 with
    | (.error e, s2) => (.error e, s2)
    | (.ok (), s2) =>
      match s2.world.fileAt cp with
      | none => (.error "FileNotFoundError", s2)
      | some bs =>
        let e : CacheEntry := ⟨n, false, (bs.length : Int), some (s2.md5fn bs), s2.now⟩
        (.ok cp, { s2 with index := cacheUpsert s2.index e })

/-- `ResourceManager.delete` (every step tolerant of absence; never fails). -/
def delete (p : String) (s : MState) : Except String Unit × MState :=
  let n := pyStrip p
  let cp := cachePathOf s n
  let w1 :=
    if s.world.isDir cp && s.world.pexists cp then s.world.rmtree cp
    else if s.world.pexists cp then s.world.removeFile cp
    else s.world
  let s1 := { s with world := w1 }
  let s2 := (clientDelete n s1).2
  (.ok (), { s2 with index := cacheDelete s2.index n })

/-- `ResourceManager.move`. -/
def move (a b : String) (s : MState) : Except String Unit × MState :=
  let n1 := pyStrip a
  let n2 := pyStrip b
  let sc := cachePathOf s n1
  let dc := cachePathOf s n2
  let step1 : Except String MState :=
    if s.world.pexists sc then
      if s.world.mkdirConflict (parentOf dc) then .error "NotADirectoryError"
      else
        let w1 := s.world.mkdirParents (parentOf dc)
        match shutilMove w1 sc dc with
        | .error e => .error e
        | .ok w2 => .ok { s with world := w2 }
    else .ok s
  match step1 with
  | .error e => (.error e, s)
  | .ok s1 =>
    let step2 : Except String MState × MState :=
      if !s1.rootsCollide then
        match clientMove n1 n2 s1 with
        | (.error e, s2) => (.error e, s2)
        | (.ok (), s2) => (.ok s2, s2)
      else (.ok s1, s1)
    match step2 with
    | (.error e, s2) => (.error e, s2)
    | (.ok s2, _) =>
      match cacheGet s2.index n1 with
      | some e =>
        let idx2 := cacheUpsert (cacheDelete s2.index n1)
          ⟨n2, e.is_dir, e.size, e.etag, s2.now⟩
        (.ok (), { s2 with index := idx2 })
      | none => (.ok (), s2)

/-- `ResourceManager.stat`. -/
def stat (p : String) (s : MState) : Option ResourceMetadata × MState :=
  let n := pyStrip p
  match cacheGet s.index n with
  | some e => (some ⟨e.path, e.is_dir, e.size, e.etag, e.updated_at⟩, s)
  | none =>
    let s1 := { s with mirrorProbes := s.mirrorProbes + 1 }
    let cp := cachePathOf s1 n
    if s1.world.pexists cp then
      let isd := s1.world.isDir cp
      let bs := (s1.world.fileAt cp).getD []
      let m : ResourceMetadata :=
        ⟨n, isd, if isd then 0 else (bs.length : Int),
          if isd then none else some (s1.md5fn bs), s1.now⟩
      (some m, { s1 with index := cacheUpsert s1.index (entryOfMeta m) })
    else
      match clientStat n s1 with
      | (some info, s2) =>
        let m : ResourceMetadata := ⟨info.path, info.is_dir, info.size, info.etag, s2.now⟩
        (some m, { s2 with index := cacheUpsert s2.index (entryOfMeta m) })
      | (none, s2) => (none, s2)

/-- Upsert-and-collect loop over backend-discovered entries in
`ResourceManager.list_directory`. -/
def absorbRemote : List QuarkFileInfo → MState → List ResourceMetadata × MState
  | [], s => ([], s)
  | q :: qs, s =>
    let m : ResourceMetadata := ⟨q.path, q.is_dir, q.size, q.etag, s.now⟩
    let s1 := { s with index := cacheUpsert s.index (entryOfMeta m) }
    let (ms, s2) := absorbRemote qs s1
    (m :: ms, s2)

/-- Breadth-first walk of `ResourceManager._gather_remote_subtree`; the `while
queue` loop carries no bound in Python, so the model runs on fuel, with fuel
exhaustion reported as an error (never reached on the finite worlds used
below). -/
def gatherBFS : Nat → List String → List QuarkFileInfo → MState →
    Except String (List QuarkFileInfo) × MState
  | 0, _, _, s => (.error "model: out of fuel", s)
  | _ + 1, [], acc, s => (.ok acc, s)
  | fuel + 1, q :: rest, acc, s =>
    match clientListDir q s with
    | (.error e, s1) => (.error e, s1)
    | (.ok es, s1) =>
      gatherBFS fuel (rest ++ (es.filter (fun i => i.is_dir)).map (fun i => i.path))
        (acc ++ es) s1

/-- `ResourceManager._gather_remote_subtree`. -/
def gatherRemoteSubtree (p : String) (s : MState) :
    Except String (List QuarkFileInfo) × MState :=
  gatherBFS (s.world.files.length + s.world.dirs.length + 2) [pyStrip p] [] s

/-- `ResourceManager.list_directory`. -/
def list_directory (p : String) (depth : String) (s : MState) :
    Except String (List ResourceMetadata) × MState :=
  let n := pyStrip p
  if depth == "0" then (.ok [], s)
  else
    let cached := if depth == "1" then listChildren s.index n else listSubtree s.index n
    let entries := cached.map
      (fun e => (⟨e.path, e.is_dir, e.size, e.etag, e.updated_at⟩ : ResourceMetadata))
    if entries.isEmpty then
      match (if depth == "infinity" then gatherRemoteSubtree n s else clientListDir n s) with
      | (.error e, s1) => (.error e, s1)
      | (.ok remotes, s1) =>
        let (ms, s2) := absorbRemote remotes s1
        (.ok ms, s2)
    else (.ok entries, s)

theorem pyTrim_idem (q : Char → Bool) (d : List Char) :
    (((d.dropWhile q).rdropWhile q).dropWhile q).rdropWhile q
      = (d.dropWhile q).rdropWhile q := by
  have h1 : ((d.dropWhile q).rdropWhile q).dropWhile q = (d.dropWhile q).rdropWhile q := by
    rw [List.dropWhile_eq_self_iff]
    intro hl
    have hpre : (d.dropWhile q).rdropWhile q <+: d.dropWhile q :=
      List.rdropWhile_prefix q _
    have hlen : 0 < (d.dropWhile q).length := lt_of_lt_of_le hl hpre.length_le
    have hget : ((d.dropWhile q).rdropWhile q).get ⟨0, hl⟩
        = (d.dropWhile q).get ⟨0, hlen⟩ := by
      simpa using hpre.getElem (show 0 < ((d.dropWhile q).rdropWhile q).length from hl)
    rw [hget]
    exact List.dropWhile_get_zero_not _ _ hlen
  rw [h1, List.rdropWhile_idempotent]

/-- `strip("/")` is idempotent: the client-side re-strip of already normalized
manager paths is the identity. -/
theorem pyStrip_idem (s : String) : pyStrip (pyStrip s) = pyStrip s := by
  unfold pyStrip
  exact congrArg String.mk (pyTrim_idem _ s.data)

theorem fileAt_writeFile_self (w : FS) (p : String) (bs : List Nat) :
    (w.writeFile p bs).fileAt p = some bs := by
  simp [FS.writeFile, FS.fileAt, List.find?]

theorem fileAt_writeFile_other (w : FS) (p q : String) (bs : List Nat) (h : q ≠ p) :
    (w.writeFile p bs).fileAt q = w.fileAt q := by
  unfold FS.writeFile FS.fileAt
  simp only
  rw [List.find?_cons_of_neg _ (by simp; exact fun hc => h (hc ▸ rfl))]
  congr 1
  induction w.files with
  | nil => rfl
  | cons a as ih =>
    by_cases ha : a.1 = p
    · rw [List.filter_cons, if_neg (by simpa using ha)]
      rw [List.find?_cons_of_neg _ (by simp [ha]; exact fun hc => h hc.symm)]
      exact ih
    · rw [List.filter_cons, if_pos (by simpa using ha)]
      by_cases haq : a.1 = q
      · rw [List.find?_cons_of_pos _ (by simpa using haq),
          List.find?_cons_of_pos _ (by simpa using haq)]
      · rw [List.find?_cons_of_neg _ (by simpa using haq),
          List.find?_cons_of_neg _ (by simpa using haq)]
        exact ih

/-- Writing `bs` anywhere keeps a path that already holds `bs` holding `bs`. -/
theorem fileAt_writeFile_keep (w : FS) (p q : String) (bs : List Nat)
    (h : w.fileAt q = some bs) : (w.writeFile p bs).fileAt q = some bs := by
  by_cases hqp : q = p
  · rw [hqp]; exact fileAt_writeFile_self w p bs
  · rw [fileAt_writeFile_other w p q bs hqp]; exact h

theorem hasFile_writeFile_self (w : FS) (p : String) (bs : List Nat) :
    (w.writeFile p bs).hasFile p = true := by
  simp [FS.writeFile, FS.hasFile]

theorem isDir_writeFile (w : FS) (p q : String) (bs : List Nat) :
    (w.writeFile p bs).isDir q = w.isDir q := rfl

theorem fileAt_mkdirParents (w : FS) (t q : String) :
    (w.mkdirParents t).fileAt q = w.fileAt q := rfl

theorem any_insFold (chain : List String) (dirs : List String) (q : String) :
    ((chain.foldl (fun ds d => if ds.any (· == d) then ds else ds ++ [d]) dirs).any (· == q))
      = (dirs.any (· == q) || chain.any (· == q)) := by
  induction chain generalizing dirs with
  | nil => simp
  | cons d rest ih =>
    rw [List.foldl_cons, List.any_cons]
    by_cases hd : dirs.any (· == d) = true
    · rw [if_pos hd, ih]
      by_cases hdq : d == q
      · have : dirs.any (· == q) = true := by
          have : d = q := by simpa using hdq
          rw [← this]; exact hd
        simp [this, hdq]
      · have hdq2 : (d == q) = false := beq_eq_false_iff_ne.mpr (by simpa using hdq)
        simp [hdq2]
    · rw [if_neg hd, ih]
      rw [List.any_append]
      simp only [List.any_cons, List.any_nil, Bool.or_false]
      rw [Bool.or_assoc]

theorem isDir_mkdirParents (w : FS) (t q : String) :
    (w.mkdirParents t).isDir q = (w.isDir q || (ancestorChain t).any (· == q)) := by
  unfold FS.mkdirParents FS.isDir
  exact any_insFold _ _ _

theorem pexists_of_rmtree (w : FS) (t q : String)
    (h : (w.rmtree t).pexists q = true) : w.pexists q = true := by
  unfold FS.pexists FS.rmtree FS.hasFile FS.isDir at *
  simp only [Bool.or_eq_true, List.any_eq_true] at h ⊢
  rcases h with ⟨x, hx, hxq⟩ | ⟨x, hx, hxq⟩
  · exact Or.inl ⟨x, List.mem_of_mem_filter hx, hxq⟩
  · exact Or.inr ⟨x, List.mem_of_mem_filter hx, hxq⟩

theorem pexists_of_removeFile (w : FS) (t q : String)
    (h : (w.removeFile t).pexists q = true) : w.pexists q = true := by
  unfold FS.pexists FS.removeFile FS.hasFile FS.isDir at *
  simp only [Bool.or_eq_true, List.any_eq_true] at h ⊢
  rcases h with ⟨x, hx, hxq⟩ | ⟨x, hx, hxq⟩
  · exact Or.inl ⟨x, List.mem_of_mem_filter hx, hxq⟩
  · exact Or.inr ⟨x, hx, hxq⟩

theorem isDir_rmtree_self (w : FS) (t : String) : (w.rmtree t).isDir t = false := by
  unfold FS.rmtree FS.isDir
  simp only [List.any_eq_true, not_exists]
  rw [Bool.eq_false_iff]
  intro hc
  rw [List.any_eq_true] at hc
  obtain ⟨x, hx, hxq⟩ := hc
  have hkeep := List.of_mem_filter hx
  have : x = t := by simpa using hxq
  rw [this] at hkeep
  simp at hkeep

theorem hasFile_rmtree_of (w : FS) (t q : String)
    (h : (w.rmtree t).hasFile q = true) : w.hasFile q = true := by
  unfold FS.rmtree FS.hasFile at *
  simp only [List.any_eq_true] at h ⊢
  obtain ⟨x, hx, hxq⟩ := h
  exact ⟨x, List.mem_of_mem_filter hx, hxq⟩

theorem hasFile_removeFile_self (w : FS) (t : String) :
    (w.removeFile t).hasFile t = false := by
  unfold FS.removeFile FS.hasFile
  rw [Bool.eq_false_iff]
  intro hc
  rw [List.any_eq_true] at hc
  obtain ⟨x, hx, hxq⟩ := hc
  have hkeep := List.of_mem_filter hx
  have : x.1 = t := by simpa using hxq
  rw [this] at hkeep
  simp at hkeep

theorem isDir_removeFile (w : FS) (t q : String) :
    (w.removeFile t).isDir q = w.isDir q := rfl

/-- Model wellformedness of a filesystem: no path is simultaneously a regular
file and a directory (true of every real filesystem state). -/
def FSWF (fs : FS) : Bool :=
  fs.files.all (fun pr => !(fs.dirs.any (· == pr.1)))

theorem FSWF_not_both (fs : FS) (h : FSWF fs = true) (p : String)
    (hf : fs.hasFile p = true) : fs.isDir p = false := by
  unfold FSWF at h
  unfold FS.hasFile at hf
  rw [List.all_eq_true] at h
  rw [List.any_eq_true] at hf
  obtain ⟨pr, hpr, hprq⟩ := hf
  have := h pr hpr
  have hp : pr.1 = p := by simpa using hprq
  rw [hp] at this
  unfold FS.isDir
  simpa using this

theorem FSWF_sub (w w' : FS) (h : FSWF w = true)
    (hf : ∀ pr ∈ w'.files, pr ∈ w.files) (hd : ∀ d ∈ w'.dirs, d ∈ w.dirs) :
    FSWF w' = true := by
  unfold FSWF at *
  rw [List.all_eq_true] at h ⊢
  intro pr hpr
  have := h pr (hf pr hpr)
  rw [Bool.not_eq_true'] at this ⊢
  rw [Bool.eq_false_iff] at this ⊢
  intro hc
  apply this
  rw [List.any_eq_true] at hc ⊢
  obtain ⟨d, hdm, hdq⟩ := hc
  exact ⟨d, hd d hdm, hdq⟩

/-- Manager-environment projection: everything except the filesystem world and
the instrumentation counters. -/
def envOf (s : MState) : DB × String × String × Bool × DT × (List Nat → String) :=
  (s.index, s.cacheRoot, s.clientRoot, s.rootsCollide, s.now, s.md5fn)

theorem envOf_clientEnsureDirectory (rel : String) (s : MState) :
    envOf (clientEnsureDirectory rel s).2 = envOf s := by
  unfold clientEnsureDirectory bumpB
  dsimp only
  split <;> rfl

theorem envOf_clientUploadFile (rel : String) (bs : List Nat) (s : MState) :
    envOf (clientUploadFile rel bs s).2 = envOf s := by
  unfold clientUploadFile bumpB
  dsimp only
  split
  · rfl
  · split <;> rfl

theorem envOf_clientDownloadFile (rel dstAbs : String) (s : MState) :
    envOf (clientDownloadFile rel dstAbs s).2 = envOf s := by
  unfold clientDownloadFile bumpB
  dsimp only
  split
  · rfl
  · split
    · rfl
    · split
      · rfl
      · split <;> rfl

theorem envOf_clientDelete (rel : String) (s : MState) :
    envOf (clientDelete rel s).2 = envOf s := rfl

theorem envOf_clientMove (a b : String) (s : MState) :
    envOf (clientMove a b s).2 = envOf s := by
  unfold clientMove bumpB
  dsimp only
  split
  · rfl
  · split <;> rfl

theorem envOf_clientStat (rel : String) (s : MState) :
    envOf (clientStat rel s).2 = envOf s := by
  unfold clientStat bumpB
  dsimp only
  split
  · rfl
  · split <;> rfl

theorem envOf_clientListDir (rel : String) (s : MState) :
    envOf (clientListDir rel s).2 = envOf s := by
  unfold clientListDir bumpB
  dsimp only
  split
  · rfl
  · split <;> rfl

theorem index_of_envOf {s t : MState} (h : envOf s = envOf t) : s.index = t.index :=
  congrArg (fun x => x.1) h

theorem envOf_gatherBFS (fuel : Nat) (queue : List String)
    (acc : List QuarkFileInfo) (s : MState) :
    envOf (gatherBFS fuel queue acc s).2 = envOf s := by
  induction fuel generalizing queue acc s with
  | zero => rfl
  | succ fuel ih =>
    cases queue with
    | nil => rfl
    | cons q rest =>
      rw [gatherBFS]
      rcases hld : clientListDir q s with ⟨res, s1⟩
      have henv : envOf s1 = envOf s := by
        have := envOf_clientListDir q s
        rw [hld] at this
        exact this
      cases res with
      | error e => exact henv
      | ok es =>
        simp only
        rw [← henv]
        exact ih _ _ _

theorem envOf_gatherRemoteSubtree (p : String) (s : MState) :
    envOf (gatherRemoteSubtree p s).2 = envOf s :=
  envOf_gatherBFS _ _ _ _

theorem absorbRemote_index (qs : List QuarkFileInfo) (s : MState) :
    (absorbRemote qs s).2.index =
      qs.foldl (fun db q => cacheUpsert db ⟨q.path, q.is_dir, q.size, q.etag, s.now⟩)
        s.index ∧
    (absorbRemote qs s).2.backendCalls = s.backendCalls ∧
    (absorbRemote qs s).2.world = s.world ∧
    (absorbRemote qs s).2.now = s.now := by
  induction qs generalizing s with
  | nil => exact ⟨rfl, rfl, rfl, rfl⟩
  | cons q rest ih =>
    rw [absorbRemote]
    simp only
    rcases ih { s with index := cacheUpsert s.index ⟨q.path, q.is_dir, q.size, q.etag, s.now⟩ }
      with ⟨h1, h2, h3, h4⟩
    refine ⟨?_, ?_, ?_, ?_⟩
    · rw [List.foldl_cons]
      exact h1
    · exact h2
    · exact h3
    · exact h4

theorem idxNodup_foldl_upsert (qs : List QuarkFileInfo) (db : DB) (now : DT)
    (h : idxNodup db) :
    idxNodup (qs.foldl (fun db q => cacheUpsert db
      ⟨q.path, q.is_dir, q.size, q.etag, now⟩) db) := by
  induction qs generalizing db with
  | nil => exact h
  | cons q rest ih =>
    rw [List.foldl_cons]
    exact ih _ (idxNodup_upsert _ _ h)

theorem index_clientEnsureDirectory (rel : String) (st : MState) :
    (clientEnsureDirectory rel st).2.index = st.index :=
  index_of_envOf (envOf_clientEnsureDirectory rel st)

theorem index_clientUploadFile (rel : String) (bs : List Nat) (st : MState) :
    (clientUploadFile rel bs st).2.index = st.index :=
  index_of_envOf (envOf_clientUploadFile rel bs st)

theorem index_clientDownloadFile (rel dstAbs : String) (st : MState) :
    (clientDownloadFile rel dstAbs st).2.index = st.index :=
  index_of_envOf (envOf_clientDownloadFile rel dstAbs st)

theorem index_clientMove (a b : String) (st : MState) :
    (clientMove a b st).2.index = st.index :=
  index_of_envOf (envOf_clientMove a b st)

theorem index_clientStat (rel : String) (st : MState) :
    (clientStat rel st).2.index = st.index :=
  index_of_envOf (envOf_clientStat rel st)

theorem index_clientListDir (rel : String) (st : MState) :
    (clientListDir rel st).2.index = st.index :=
  index_of_envOf (envOf_clientListDir rel st)

theorem index_gatherRemoteSubtree (p : String) (st : MState) :
    (gatherRemoteSubtree p st).2.index = st.index :=
  index_of_envOf (envOf_gatherRemoteSubtree p st)

theorem idxNodup_ensure_directory (p : String) (s : MState) (h : idxNodup s.index) :
    idxNodup (ensure_directory p s).2.index := by
  unfold ensure_directory
  dsimp only
  split
  · rename_i e s1 heq
    have h1 : s1.index = s.index := by
      have h0 := congrArg (fun x => x.2.index) heq
      dsimp only at h0
      rw [index_clientEnsureDirectory] at h0
      exact h0.symm
    exact (show idxNodup s1.index by rwa [h1])
  · rename_i u s1 heq
    have h1 : s1.index = s.index := by
      have h0 := congrArg (fun x => x.2.index) heq
      dsimp only at h0
      rw [index_clientEnsureDirectory] at h0
      exact h0.symm
    split
    · exact (show idxNodup s1.index by rwa [h1])
    · exact idxNodup_upsert _ _ (by rwa [h1])

theorem idxNodup_put_file (p : String) (data : List Nat) (s : MState)
    (h : idxNodup s.index) : idxNodup (put_file p data s).2.index := by
  unfold put_file
  dsimp only
  split
  · exact h
  · split
    · exact h
    · split
      · split
        · exact h
        · split
          · exact h
          · exact idxNodup_upsert _ _ h
      · split
        · rename_i e s3 heq
          have h3 : s3.index = s.index := by
            have h0 := congrArg (fun x => x.2.index) heq
            dsimp only at h0
            rw [index_clientUploadFile] at h0
            exact h0.symm
          exact (show idxNodup s3.index by rwa [h3])
        · rename_i u s3 heq
          have h3 : s3.index = s.index := by
            have h0 := congrArg (fun x => x.2.index) heq
            dsimp only at h0
            rw [index_clientUploadFile] at h0
            exact h0.symm
          split
          · exact (show idxNodup s3.index by rwa [h3])
          · split
            · exact (show idxNodup s3.index by rwa [h3])
            · exact idxNodup_upsert _ _ (by rwa [h3])

theorem idxNodup_get_file (p : String) (s : MState) (h : idxNodup s.index) :
    idxNodup (get_file p s).2.index := by
  unfold get_file
  dsimp only
  split
  · split <;> exact h
  · split
    · exact h
    · split
      · rename_i e s2 heq
        have h2 : s2.index = s.index := by
          have h0 := congrArg (fun x => x.2.index) heq
          dsimp only at h0
          rw [index_clientDownloadFile] at h0
          exact h0.symm
        exact (show idxNodup s2.index by rwa [h2])
      · rename_i u s2 heq
        have h2 : s2.index = s.index := by
          have h0 := congrArg (fun x => x.2.index) heq
          dsimp only at h0
          rw [index_clientDownloadFile] at h0
          exact h0.symm
        split
        · exact (show idxNodup s2.index by rwa [h2])
        · exact idxNodup_upsert _ _ (by rwa [h2])

theorem idxNodup_mDelete (p : String) (s : MState) (h : idxNodup s.index) :
    idxNodup (delete p s).2.index := by
  unfold delete
  dsimp only
  exact idxNodup_delete _ _ h

theorem idxNodup_move (a b : String) (s : MState) (h : idxNodup s.index) :
    idxNodup (move a b s).2.index := by
  unfold move
  dsimp only
  split
  · exact h
  · rename_i s1 hs1
    have h1 : s1.index = s.index := by
      revert hs1
      split
      · split
        · intro hx; cases hx
        · split
          · intro hx; cases hx
          · intro hx
            injection hx with hx
            rw [← hx]
      · intro hx
        injection hx with hx
        rw [← hx]
    split
    · rename_i e s2 hs2
      have h2 : s2.index = s1.index := by
        revert hs2
        split
        · split
          · rename_i e2 s3 hm
            intro hx
            injection hx with _ hx2
            have h0 := congrArg (fun x => x.2.index) hm
            dsimp only at h0
            rw [index_clientMove] at h0
            rw [← hx2]
            exact h0.symm
          · rename_i u s3 hm
            intro hx
            cases hx
        · intro hx
          injection hx with _ hx2
          rw [← hx2]
      rwa [h2, h1]
    · rename_i s2 sx hs2
      have h2 : s2.index = s1.index := by
        revert hs2
        split
        · split
          · rename_i e2 s3 hm
            intro hx
            cases hx
          · rename_i u s3 hm
            intro hx
            injection hx with hx1 _
            injection hx1 with hx1
            have h0 := congrArg (fun x => x.2.index) hm
            dsimp only at h0
            rw [index_clientMove] at h0
            rw [← hx1]
            exact h0.symm
        · intro hx
          injection hx with hx1 _
          injection hx1 with hx1
          rw [← hx1]
      split
      · exact idxNodup_upsert _ _ (idxNodup_delete _ _ (by rwa [h2, h1]))
      · rwa [h2, h1]

theorem idxNodup_stat (p : String) (s : MState) (h : idxNodup s.index) :
    idxNodup (stat p s).2.index := by
  unfold stat
  dsimp only
  split
  · exact h
  · split
    · exact idxNodup_upsert _ _ h
    · split
      · rename_i info s2 heq
        have h2 : s2.index = s.index := by
          have h0 := congrArg (fun x => x.2.index) heq
          dsimp only at h0
          rw [index_clientStat] at h0
          exact h0.symm
        exact idxNodup_upsert _ _ (by rwa [h2])
      · rename_i s2 heq
        have h2 : s2.index = s.index := by
          have h0 := congrArg (fun x => x.2.index) heq
          dsimp only at h0
          rw [index_clientStat] at h0
          exact h0.symm
        exact (show idxNodup s2.index by rwa [h2])

theorem idxNodup_list_directory (p depth : String) (s : MState) (h : idxNodup s.index) :
    idxNodup (list_directory p depth s).2.index := by
  unfold list_directory
  dsimp only
  split
  · exact h
  · split <;>
    · split
      · rcases hres : (if (depth == "infinity") = true then gatherRemoteSubtree (pyStrip p) s
            else clientListDir (pyStrip p) s) with ⟨r, s1⟩
        have h1 : s1.index = s.index := by
          have h0 := congrArg (fun x => x.2.index) hres
          dsimp only at h0
          rw [← h0]
          split
          · exact index_gatherRemoteSubtree _ _
          · exact index_clientListDir _ _
        cases r with
        | error e => exact (show idxNodup s1.index by rwa [h1])
        | ok remotes =>
          refine (show idxNodup (absorbRemote remotes s1).2.index from ?_)
          rw [(absorbRemote_index remotes s1).1]
          exact idxNodup_foldl_upsert _ _ _ (by rwa [h1])
      · exact h

/-- One observable operation against the shared state: a raw `CacheIndex`
mutation or a `ResourceManager` call (the read-only result is discarded; the
post-state is kept, also on the error paths, which in the model carry the
partially updated state). -/
inductive MOp where
  | cUpsert (e : CacheEntry)
  | cDelete (p : String)
  | mEnsureDirectory (p : String)
  | mPutFile (p : String) (data : List Nat)
  | mGetFile (p : String)
  | mDelete (p : String)
  | mMove (a b : String)
  | mStat (p : String)
  | mListDirectory (p depth : String)

def applyOp (s : MState) : MOp → MState
  | .cUpsert e => { s with index := cacheUpsert s.index e }
  | .cDelete p => { s with index := cacheDelete s.index p }
  | .mEnsureDirectory p => (ensure_directory p s).2
  | .mPutFile p data => (put_file p data s).2
  | .mGetFile p => (get_file p s).2
  | .mDelete p => (delete p s).2
  | .mMove a b => (move a b s).2
  | .mStat p => (stat p s).2
  | .mListDirectory p d => (list_directory p d s).2

theorem idxNodup_applyOp (s : MState) (op : MOp) (h : idxNodup s.index) :
    idxNodup (applyOp s op).index := by
  cases op with
  | cUpsert e => exact idxNodup_upsert _ _ h
  | cDelete p => exact idxNodup_delete _ _ h
  | mEnsureDirectory p => exact idxNodup_ensure_directory p s h
  | mPutFile p data => exact idxNodup_put_file p data s h
  | mGetFile p => exact idxNodup_get_file p s h
  | mDelete p => exact idxNodup_mDelete p s h
  | mMove a b => exact idxNodup_move a b s h
  | mStat p => exact idxNodup_stat p s h
  | mListDirectory p d => exact idxNodup_list_directory p d s h

theorem entryOfRow_rowOfEntry (e : CacheEntry) (hv : DTValid e.updated_at) :
    entryOfRow (rowOfEntry e) = e := by
  obtain ⟨pa, d, sz, et, ua⟩ := e
  simp only [entryOfRow, rowOfEntry, CacheEntry.mk.injEq, true_and]
  exact fromIso_isoformat _ hv

/-- C9: in every index state reachable from a fresh manager by any sequence of
raw `CacheIndex` mutations and `ResourceManager` operations there is at most
one row per path string — `upsert` replaces rather than duplicates. -/
theorem C9_index_at_most_one_row_per_path (cacheRoot clientRoot : String)
    (now : DT) (md5fn : List Nat → String) (ops : List MOp) :
    idxNodup ((ops.foldl applyOp (mkResourceManager cacheRoot clientRoot now md5fn)).index) := by
  have base : idxNodup (mkResourceManager cacheRoot clientRoot now md5fn).index := by
    simp [mkResourceManager, idxNodup]
  suffices h : ∀ (s : MState), idxNodup s.index → idxNodup ((ops.foldl applyOp s).index) from
    h _ base
  induction ops with
  | nil => exact fun s hs => hs
  | cons op rest ih =>
    intro s hs
    rw [List.foldl_cons]
    exact ih _ (idxNodup_applyOp s op hs)

/-- C8: `PathIndex.get(p)` immediately after `PathIndex.upsert(e)` (with
`e.path = p`) returns `e` with every field equal — the timestamp surviving the
`isoformat`/`fromisoformat` text round-trip — and `upsert` replaces any
earlier row at the same path (one row per path stays one row; every other
path's lookup is untouched, so the new value wins). -/
theorem C8_upsert_get_roundtrip (db : DB) (e : CacheEntry)
    (hv : DTValid e.updated_at) (hnd : idxNodup db) :
    cacheGet (cacheUpsert db e) e.path = some e
    ∧ idxNodup (cacheUpsert db e)
    ∧ ∀ q, q ≠ e.path → cacheGet (cacheUpsert db e) q = cacheGet db q := by
  refine ⟨?_, idxNodup_upsert db e hnd, fun q hq => cacheGet_upsert_other db e q hq⟩
  rw [cacheGet_upsert_self, entryOfRow_rowOfEntry e hv]

def exDT : DT := ⟨2024, 1, 2, 3, 4, 5, 0, some 0⟩

def exEntry : CacheEntry := ⟨"papers/a.pdf", false, 3, some "e1", exDT⟩

theorem C8_upsert_get_roundtrip_witness :
    DTValid exEntry.updated_at ∧ idxNodup ([⟨"other", true, 0, none, "t"⟩] : DB) ∧
      (cacheGet (cacheUpsert [⟨"other", true, 0, none, "t"⟩] exEntry) exEntry.path =
          some exEntry
        ∧ idxNodup (cacheUpsert [⟨"other", true, 0, none, "t"⟩] exEntry)
        ∧ ∀ q, q ≠ exEntry.path →
            cacheGet (cacheUpsert [⟨"other", true, 0, none, "t"⟩] exEntry) q =
              cacheGet [⟨"other", true, 0, none, "t"⟩] q) :=
  ⟨by decide, by decide,
    C8_upsert_get_roundtrip [⟨"other", true, 0, none, "t"⟩] exEntry (by decide) (by decide)⟩

/-- Row-acceptance condition of the `list_children` loop (everything except
the `seen` dedup, which reachable states make vacuous). -/
def childKeep (normalized base : String) (r : CacheRow) : Bool :=
  (normalized == "" || !(r.path == normalized)) &&
    (!((childRem base r.path).contains '/') && !(childRem base r.path).isEmpty)

theorem childKeep_true_of (normalized base : String) (r : CacheRow)
    (h1 : ¬(!(normalized == "") && r.path == normalized) = true)
    (h2 : ¬((childRem base r.path).contains '/' || (childRem base r.path).isEmpty) = true) :
    childKeep normalized base r = true := by
  unfold childKeep
  rw [Bool.and_eq_true]
  constructor
  · simp only [Bool.and_eq_true, Bool.not_eq_true', beq_iff_eq, not_and] at h1
    simp only [Bool.or_eq_true, beq_iff_eq]
    by_cases hn : normalized = ""
    · exact Or.inl (by simpa using hn)
    · refine Or.inr ?_
      simp only [Bool.not_eq_true', beq_eq_false_iff_ne, ne_eq]
      intro hc
      exact absurd hc (h1 (by simpa using hn))
  · simp only [Bool.or_eq_true, not_or, Bool.not_eq_true] at h2
    rw [h2.1, h2.2]
    rfl

theorem childLoop_mem (normalized base : String) (rows : DB) (seen : List String)
    (e : CacheEntry) (h : e ∈ childLoop normalized base rows seen) :
    ∃ r ∈ rows, e = entryOfRow r ∧ childKeep normalized base r = true := by
  induction rows generalizing seen with
  | nil => cases h
  | cons r rs ih =>
    rw [childLoop] at h
    by_cases h1 : (!(normalized == "") && r.path == normalized) = true
    · rw [if_pos h1] at h
      obtain ⟨r', hr', he⟩ := ih seen h
      exact ⟨r', List.mem_cons_of_mem _ hr', he⟩
    · rw [if_neg h1] at h
      by_cases h2 : ((childRem base r.path).contains '/'
          || (childRem base r.path).isEmpty) = true
      · rw [if_pos h2] at h
        obtain ⟨r', hr', he⟩ := ih seen h
        exact ⟨r', List.mem_cons_of_mem _ hr', he⟩
      · rw [if_neg h2] at h
        by_cases h3 : (seen.any (· == r.path)) = true
        · rw [if_pos h3] at h
          obtain ⟨r', hr', he⟩ := ih seen h
          exact ⟨r', List.mem_cons_of_mem _ hr', he⟩
        · rw [if_neg h3] at h
          rcases List.mem_cons.mp h with he | hrest
          · exact ⟨r, List.mem_cons_self _ _, he, childKeep_true_of normalized base r h1 h2⟩
          · obtain ⟨r', hr', he⟩ := ih _ hrest
            exact ⟨r', List.mem_cons_of_mem _ hr', he⟩

theorem childLoop_eq_filter (normalized base : String) (rows : DB) (seen : List String)
    (hnd : (rows.map (fun r => r.path)).Nodup)
    (hseen : ∀ r ∈ rows, (seen.any (· == r.path)) = false) :
    childLoop normalized base rows seen
      = (rows.filter (childKeep normalized base)).map entryOfRow := by
  induction rows generalizing seen with
  | nil => rfl
  | cons r rs ih =>
    rw [childLoop, List.filter_cons]
    rw [List.map_cons, List.nodup_cons] at hnd
    by_cases h1 : (!(normalized == "") && r.path == normalized) = true
    · rw [if_pos h1]
      have hck : childKeep normalized base r = false := by
        unfold childKeep
        simp only [Bool.and_eq_true, Bool.not_eq_true', beq_iff_eq] at h1
        simp [h1.1, h1.2]
      rw [hck, if_neg (by simp)]
      exact ih seen hnd.2 (fun x hx => hseen x (List.mem_cons_of_mem _ hx))
    · rw [if_neg h1]
      by_cases h2 : ((childRem base r.path).contains '/'
          || (childRem base r.path).isEmpty) = true
      · rw [if_pos h2]
        have hck : childKeep normalized base r = false := by
          unfold childKeep
          rcases Bool.or_eq_true_iff.mp h2 with hc | hc <;>
          · rw [hc]
            simp
        rw [hck, if_neg (by simp)]
        exact ih seen hnd.2 (fun x hx => hseen x (List.mem_cons_of_mem _ hx))
      · rw [if_neg h2]
        rw [if_neg (by rw [hseen r (List.mem_cons_self _ _)]; simp)]
        rw [childKeep_true_of normalized base r h1 h2, if_pos rfl]
        rw [List.map_cons]
        congr 1
        apply ih
        · exact hnd.2
        · intro x hx
          rw [List.any_cons]
          have hx1 : (r.path == x.path) = false := by
            rw [beq_eq_false_iff_ne]
            intro hc
            exact hnd.1 (hc ▸ List.mem_map_of_mem (fun rr => rr.path) hx)
          rw [hx1, hseen x (List.mem_cons_of_mem _ hx)]
          rfl

theorem string_empty_iff_data (s : String) : s = "" ↔ s.data = [] := by
  cases s with
  | mk d =>
    constructor
    · intro h
      rw [h]
    · intro h
      simp only at h
      rw [show ("" : String) = ⟨[]⟩ from rfl, h]

theorem contains_drop_false (l : List Char) (n : Nat) (c : Char)
    (h : (l.contains c) = false) : ((l.drop n).contains c) = false := by
  rw [Bool.eq_false_iff] at h ⊢
  intro hc
  apply h
  have hm : c ∈ l.drop n := List.elem_iff.mp hc
  exact List.elem_iff.mpr (List.mem_of_mem_drop hm)

theorem listChildren_eq (db : DB) (pfx : String) (hnd : idxNodup db) :
    listChildren db pfx = ((sqlFetch db (pyStrip pfx)
      ((if pyStrip pfx == "" then "" else pyStrip pfx ++ "/") ++ "%")).filter
      (childKeep (pyStrip pfx) (if pyStrip pfx == "" then "" else pyStrip pfx ++ "/"))).map
      entryOfRow := by
  unfold listChildren
  dsimp only
  apply childLoop_eq_filter
  · unfold sqlFetch
    unfold idxNodup at hnd
    exact (List.Sublist.map _ (List.filter_sublist db)).nodup hnd
  · intro r _
    rfl

theorem append_slash_ne_empty (s : String) : ((s ++ "/") == "") = false := by
  rw [beq_eq_false_iff_ne]
  intro h
  have hd := congrArg String.data h
  simp [String.data_append] at hd

theorem childRem_empty_base (pth : String) : childRem "" pth = pth.data := by
  unfold childRem
  simp

/-- C5 (amended): `listChildren(prefix)` never yields an entry whose path,
with `prefix/` stripped, still contains a `/`; it never yields the prefix's
own entry; and for the root prefix it returns exactly the entries with a
*nonempty* path containing no `/` — the row for the root path `""` itself,
although it contains no `/`, is excluded (`remainder == ""`), which is the
sole correction to the claim. -/
theorem C5_list_children_amended :
    (∀ (db : DB) (pfx : String) (e : CacheEntry), pyStrip pfx = pfx →
        e ∈ listChildren db pfx →
        ((e.path.data.drop (if pfx = "" then 0 else pfx.data.length + 1)).contains '/')
          = false)
  ∧ (∀ (db : DB) (pfx : String) (e : CacheEntry), pyStrip pfx = pfx →
        e ∈ listChildren db pfx → e.path ≠ pfx)
  ∧ (∀ (db : DB) (e : CacheEntry), idxNodup db →
        (e ∈ listChildren db "" ↔
          ∃ r ∈ db, e = entryOfRow r ∧ r.path ≠ "" ∧ (r.path.data.contains '/') = false)) := by
  refine ⟨?_, ?_, ?_⟩
  · intro db pfx e hpre hmem
    unfold listChildren at hmem
    dsimp only at hmem
    rw [hpre] at hmem
    obtain ⟨r, _, he, hk⟩ := childLoop_mem _ _ _ _ _ hmem
    unfold childKeep at hk
    rw [Bool.and_eq_true] at hk
    have hk2 := hk.2
    rw [Bool.and_eq_true] at hk2
    have hcon : ((childRem (if pfx == "" then "" else pfx ++ "/") r.path).contains '/')
        = false := by
      have := hk2.1
      rwa [Bool.not_eq_true'] at this
    have hep : e.path = r.path := by rw [he]; rfl
    rw [hep]
    by_cases hpfx : pfx = ""
    · rw [if_pos hpfx, List.drop_zero]
      rw [hpfx] at hcon
      rw [if_pos (by simp)] at hcon
      rwa [childRem_empty_base] at hcon
    · rw [if_neg hpfx]
      rw [if_neg (by simpa using hpfx)] at hcon
      unfold childRem at hcon
      rw [append_slash_ne_empty] at hcon
      simp only [Bool.not_false, Bool.true_and] at hcon
      by_cases hpre2 : ((pfx ++ "/").data.isPrefixOf r.path.data) = true
      · rw [if_pos hpre2] at hcon
        have hlen : (pfx ++ "/").data.length = pfx.data.length + 1 := by
          rw [String.data_append]
          simp
        rwa [hlen] at hcon
      · rw [if_neg hpre2] at hcon
        exact contains_drop_false _ _ _ hcon
  · intro db pfx e hpre hmem
    unfold listChildren at hmem
    dsimp only at hmem
    rw [hpre] at hmem
    obtain ⟨r, _, he, hk⟩ := childLoop_mem _ _ _ _ _ hmem
    unfold childKeep at hk
    rw [Bool.and_eq_true] at hk
    have hep : e.path = r.path := by rw [he]; rfl
    rw [hep]
    by_cases hpfx : pfx = ""
    · rw [hpfx]
      have hk2 := hk.2
      rw [Bool.and_eq_true] at hk2
      have hne : ((childRem (if pfx == "" then "" else pfx ++ "/") r.path).isEmpty) = false := by
        have := hk2.2
        rwa [Bool.not_eq_true'] at this
      rw [hpfx] at hne
      rw [if_pos (by simp)] at hne
      rw [childRem_empty_base] at hne
      intro hc
      rw [(string_empty_iff_data r.path).mp hc] at hne
      simp at hne
    · have hk1 := hk.1
      rw [Bool.or_eq_true] at hk1
      rcases hk1 with hk1 | hk1
      · exact absurd (by simpa using hk1) hpfx
      · rw [Bool.not_eq_true', beq_eq_false_iff_ne] at hk1
        exact hk1
  · intro db e hnd
    rw [listChildren_eq db "" hnd]
    simp only [show pyStrip "" = "" from rfl, show (("" : String) == "") = true from rfl,
      ite_true]
    have hall : sqlFetch db "" ("" ++ "%") = db := by
      unfold sqlFetch
      apply List.filter_eq_self.mpr
      intro r _
      have hlp : sqlLike ("" ++ "%").data r.path.data = true := by
        rw [show ("" ++ "%" : String).data = ['%'] from rfl]
        exact sqlLike_percent_any _
      rw [hlp]
      simp
    rw [hall]
    rw [List.mem_map]
    constructor
    · rintro ⟨r, hrf, he⟩
      rw [List.mem_filter] at hrf
      obtain ⟨hrdb, hck⟩ := hrf
      unfold childKeep at hck
      rw [childRem_empty_base] at hck
      rw [Bool.and_eq_true, Bool.and_eq_true] at hck
      refine ⟨r, hrdb, he.symm, ?_, ?_⟩
      · intro hc
        have := hck.2.2
        rw [Bool.not_eq_true'] at this
        rw [(string_empty_iff_data r.path).mp hc] at this
        simp at this
      · have := hck.2.1
        rwa [Bool.not_eq_true'] at this
    · rintro ⟨r, hrdb, he, hne, hnc⟩
      refine ⟨r, ?_, he.symm⟩
      rw [List.mem_filter]
      refine ⟨hrdb, ?_⟩
      unfold childKeep
      rw [childRem_empty_base]
      rw [Bool.and_eq_true, Bool.and_eq_true]
      refine ⟨by simp, by rw [Bool.not_eq_true', hnc], ?_⟩
      rw [Bool.not_eq_true']
      rw [show r.path.data.isEmpty = false ↔ r.path.data ≠ [] by
        cases r.path.data <;> simp]
      intro hc
      exact hne ((string_empty_iff_data r.path).mpr hc)

def exDb5 : DB :=
  [⟨"a/b", false, 1, some "e", "t"⟩, ⟨"a", true, 0, none, "t"⟩,
   ⟨"f", false, 1, some "e2", "t"⟩]

theorem C5_list_children_amended_witness :
    pyStrip "a" = "a" ∧ pyStrip "" = "" ∧ idxNodup exDb5 ∧
    (entryOfRow ⟨"a/b", false, 1, some "e", "t"⟩ ∈ listChildren exDb5 "a") ∧
    (((entryOfRow ⟨"a/b", false, 1, some "e", "t"⟩).path.data.drop
        (if ("a" : String) = "" then 0 else ("a" : String).data.length + 1)).contains '/')
      = false ∧
    (entryOfRow ⟨"a/b", false, 1, some "e", "t"⟩).path ≠ "a" ∧
    (entryOfRow ⟨"f", false, 1, some "e2", "t"⟩ ∈ listChildren exDb5 "" ↔
      ∃ r ∈ exDb5, entryOfRow ⟨"f", false, 1, some "e2", "t"⟩ = entryOfRow r ∧
        r.path ≠ "" ∧ (r.path.data.contains '/') = false) :=
  ⟨by decide, by decide, by decide, by decide,
    C5_list_children_amended.1 exDb5 "a" _ (by decide) (by decide),
    C5_list_children_amended.2.1 exDb5 "a" _ (by decide) (by decide),
    C5_list_children_amended.2.2 exDb5 _ (by decide)⟩

/-- C5 counterexample: the root row (path `""`) contains no `/` yet
`listChildren("")` does not return it, so the root listing is not "exactly
the entries containing no `/` at all". -/
theorem C5_root_entry_counterexample :
    ((("" : String).data.contains '/') = false)
    ∧ listChildren [⟨"", true, 0, none, "t"⟩] "" = [] := by
  decide

/-- C1: evaluation of `list_subtree` at the failing input.  SQLite's default
`LIKE` is ASCII-case-insensitive, so with the single row `"A/b"` the query
`list_subtree("a")` (pattern `'a/%'`) returns that row even though its path
does not extend `"a/"` — the result is not "exactly the descendants of the
prefix". -/
theorem C1_list_subtree_case_fold_eval :
    (entryOfRow ⟨"A/b", false, 0, none, "t"⟩
        ∈ listSubtree [⟨"A/b", false, 0, none, "t"⟩] "a")
    ∧ ((("a" ++ "/" : String).data.isPrefixOf ("A/b" : String).data) = false) := by
  decide

theorem backendCalls_clientListDir (rel : String) (st : MState) :
    (clientListDir rel st).2.backendCalls = st.backendCalls + 1 := by
  unfold clientListDir bumpB
  dsimp only
  split
  · rfl
  · split <;> rfl

/-- C10 (amended): `list_directory` treats every depth string other than `"0"`
and `"1"` alike for the index query (the full subtree), but on the
empty-index fallback only the exact string `"infinity"` performs the
breadth-first backend walk: any other unrecognized depth (e.g. `"2"`,
`"INFINITY"`) issues exactly one backend `list_directory` call. -/
theorem C10_unrecognized_depth (s : MState) (p d : String)
    (h0 : d ≠ "0") (h1 : d ≠ "1") (hi : d ≠ "infinity") :
    list_directory p d s = list_directory p "2" s
    ∧ (listSubtree s.index (pyStrip p) ≠ [] →
        list_directory p d s = (.ok ((listSubtree s.index (pyStrip p)).map
          (fun e => ⟨e.path, e.is_dir, e.size, e.etag, e.updated_at⟩)), s))
    ∧ (listSubtree s.index (pyStrip p) = [] →
        (list_directory p d s).2.backendCalls = s.backendCalls + 1) := by
  have e0 : (d == "0") = false := beq_eq_false_iff_ne.mpr h0
  have e1 : (d == "1") = false := beq_eq_false_iff_ne.mpr h1
  have ei : (d == "infinity") = false := beq_eq_false_iff_ne.mpr hi
  refine ⟨?_, ?_, ?_⟩
  · unfold list_directory
    rw [e0, e1, ei]
    rfl
  · intro hne
    unfold list_directory
    rw [e0, e1, ei]
    dsimp only
    rw [if_neg (by simp), if_neg (by simpa using hne)]
    rw [if_neg (show ¬(false = true) by simp)]
  · intro heq
    unfold list_directory
    rw [e0, e1, ei]
    dsimp only
    rw [if_neg (by simp), if_pos (by simp [heq])]
    rcases hres : clientListDir (pyStrip p) s with ⟨r, s1⟩
    have hbk : s1.backendCalls = s.backendCalls + 1 := by
      have := backendCalls_clientListDir (pyStrip p) s
      rw [hres] at this
      exact this
    cases r with
    | error e => exact hbk
    | ok remotes =>
      refine (show (absorbRemote remotes s1).2.backendCalls = s.backendCalls + 1 from ?_)
      rw [(absorbRemote_index remotes s1).2.1]
      exact hbk

def exW10 : FS := ⟨[("b/d/f", [49])], ["c", "b", "b/d"]⟩

def exMd5 : List Nat → String := fun bs => "h" ++ toString bs.length

def exS10 : MState :=
  ⟨[], exW10, "c", "b", false, exDT, exMd5, 0, 0⟩

theorem C10_unrecognized_depth_witness :
    (("2" : String) ≠ "0" ∧ ("2" : String) ≠ "1" ∧ ("2" : String) ≠ "infinity") ∧
    (list_directory "x" "2" exS10 = list_directory "x" "2" exS10
      ∧ (listSubtree exS10.index (pyStrip "x") ≠ [] →
          list_directory "x" "2" exS10 = (.ok ((listSubtree exS10.index (pyStrip "x")).map
            (fun e => ⟨e.path, e.is_dir, e.size, e.etag, e.updated_at⟩)), exS10))
      ∧ (listSubtree exS10.index (pyStrip "x") = [] →
          (list_directory "x" "2" exS10).2.backendCalls = exS10.backendCalls + 1)) :=
  ⟨⟨by decide, by decide, by decide⟩,
    C10_unrecognized_depth exS10 "x" "2" (by decide) (by decide) (by decide)⟩

/-- C10 counterexample: on a backend with a nested file and an empty index,
depth `"2"` returns only the immediate children (one backend listing) while
depth `"infinity"` walks the whole subtree — `"2"` is not treated exactly
like `"infinity"`. -/
theorem C10_depth2_not_infinity_counterexample :
    (list_directory "" "2" exS10).1 = .ok [⟨"d", true, 0, none, exDT⟩]
    ∧ (list_directory "" "infinity" exS10).1 =
        .ok [⟨"d", true, 0, none, exDT⟩, ⟨"d/f", false, 1, some "h1", exDT⟩] := by
  constructor
  · rfl
  · rfl

theorem stat_hit (s : MState) (p : String) (e : CacheEntry)
    (h : cacheGet s.index (pyStrip p) = some e) :
    stat p s = (some ⟨e.path, e.is_dir, e.size, e.etag, e.updated_at⟩, s) := by
  unfold stat
  dsimp only
  rw [h]

/-- C4: an index hit in `stat` returns immediately — the state (mirror-probe
and backend-call counters included) is byte-for-byte unchanged; and when
`stat` finds the path only in the backend, the upsert it performs makes an
immediately repeated `stat` an index hit: the repeated call changes nothing
and in particular makes zero further backend calls. -/
theorem C4_stat_trusts_index (s : MState) (p : String) :
    (∀ e : CacheEntry, cacheGet s.index (pyStrip p) = some e →
      stat p s = (some ⟨e.path, e.is_dir, e.size, e.etag, e.updated_at⟩, s))
    ∧ (DTValid s.now →
        cacheGet s.index (pyStrip p) = none →
        s.world.pexists (pjoin s.cacheRoot (pyStrip p)) = false →
        s.world.pexists (pjoin s.clientRoot (pyStrip p)) = true →
        (stat p s).2.backendCalls = s.backendCalls + 1
        ∧ stat p ((stat p s).2) = ((stat p s).1, (stat p s).2)) := by
  constructor
  · exact fun e h => stat_hit s p e h
  · intro hv hidx hmir hback
    have hres : ∃ m : ResourceMetadata, m.path = pyStrip p ∧ m.updated_at = s.now ∧
        stat p s = (some m,
          { s with mirrorProbes := s.mirrorProbes + 1,
                   backendCalls := s.backendCalls + 1,
                   index := cacheUpsert s.index (entryOfMeta m) }) := by
      unfold stat
      dsimp only
      rw [hidx]
      dsimp only
      rw [if_neg (by rw [show cachePathOf { s with mirrorProbes := s.mirrorProbes + 1 }
        (pyStrip p) = pjoin s.cacheRoot (pyStrip p) from rfl]; simp [hmir])]
      unfold clientStat bumpB
      dsimp only
      rw [show clientResolve
          { s with mirrorProbes := s.mirrorProbes + 1, backendCalls := s.backendCalls + 1 }
          (pyStrip p) = pjoin s.clientRoot (pyStrip (pyStrip p)) from rfl]
      rw [pyStrip_idem]
      rw [if_neg (by simp [hback])]
      by_cases hdir : s.world.isDir (pjoin s.clientRoot (pyStrip p)) = true
      · rw [if_pos hdir]
        exact ⟨⟨pyStrip p, true, 0, none, s.now⟩, rfl, rfl, rfl⟩
      · rw [if_neg hdir]
        refine ⟨⟨pyStrip p, false,
          ((s.world.fileAt (pjoin s.clientRoot (pyStrip p))).getD []).length,
          some (s.md5fn ((s.world.fileAt (pjoin s.clientRoot (pyStrip p))).getD [])),
          s.now⟩, rfl, rfl, rfl⟩
    obtain ⟨m, hmp, hmn, hstat⟩ := hres
    rw [hstat]
    refine ⟨rfl, ?_⟩
    have hget : cacheGet (cacheUpsert s.index (entryOfMeta m)) (pyStrip p)
        = some (entryOfMeta m) := by
      have h1 := cacheGet_upsert_self s.index (entryOfMeta m)
      have hvm : DTValid (entryOfMeta m).updated_at := by
        show DTValid m.updated_at
        rw [hmn]
        exact hv
      rw [entryOfRow_rowOfEntry (entryOfMeta m) hvm] at h1
      have hpm : (entryOfMeta m).path = m.path := rfl
      rw [hpm, hmp] at h1
      exact h1
    have hfin := stat_hit { s with mirrorProbes := s.mirrorProbes + 1, backendCalls := s.backendCalls + 1, index := cacheUpsert s.index (entryOfMeta m) } p (entryOfMeta m) hget
    dsimp only
    rw [hfin]
    rfl

def exS4 : MState :=
  ⟨[], ⟨[("b/g.txt", [5, 6])], ["c", "b"]⟩, "c", "b", false, exDT, exMd5, 0, 0⟩

theorem C4_stat_trusts_index_witness :
    (stat "g.txt" exS4).2.backendCalls = exS4.backendCalls + 1
    ∧ stat "g.txt" ((stat "g.txt" exS4).2)
        = ((stat "g.txt" exS4).1, (stat "g.txt" exS4).2) :=
  (C4_stat_trusts_index exS4 "g.txt").2 (by decide) (by decide) (by decide) (by decide)

/-- The removal step shared by `ResourceManager.delete` (mirror side) and
`FilesystemQuarkClient.delete`: directory → `rmtree`, existing file →
`unlink`, absent → no-op. -/
def purge (w : FS) (t : String) : FS :=
  if w.isDir t then w.rmtree t else if w.pexists t then w.removeFile t else w

theorem FSWF_purge (w : FS) (t : String) (h : FSWF w = true) :
    FSWF (purge w t) = true := by
  unfold purge
  split
  · exact FSWF_sub w _ h (fun pr hpr => List.mem_of_mem_filter hpr)
      (fun d hd => List.mem_of_mem_filter hd)
  · split
    · exact FSWF_sub w _ h (fun pr hpr => List.mem_of_mem_filter hpr)
        (fun d hd => hd)
    · exact h

theorem pexists_purge_self (w : FS) (t : String) (h : FSWF w = true) :
    (purge w t).pexists t = false := by
  unfold purge
  split
  · rename_i hd
    unfold FS.pexists
    rw [isDir_rmtree_self, Bool.or_false, Bool.eq_false_iff]
    intro hf
    have hnd := FSWF_not_both w h t (hasFile_rmtree_of w t t hf)
    rw [hnd] at hd
    exact Bool.noConfusion hd
  · rename_i hd
    split
    · unfold FS.pexists
      rw [hasFile_removeFile_self, isDir_removeFile, Bool.false_or]
      exact Bool.eq_false_iff.mpr hd
    · rename_i hp
      exact Bool.eq_false_iff.mpr hp

theorem pexists_purge_of (w : FS) (t q : String)
    (h : (purge w t).pexists q = true) : w.pexists q = true := by
  unfold purge at h
  split at h
  · exact pexists_of_rmtree w t q h
  · split at h
    · exact pexists_of_removeFile w t q h
    · exact h

/-- C6: `delete(p)` always reports success, a `stat(p)` right after it finds
nothing (index row gone, mirror path gone, backend path gone), and a second
`delete(p)` also succeeds — every removal step tolerates an absent target. -/
theorem C6_delete_absent_and_tolerant (s : MState) (p : String)
    (hwf : FSWF s.world = true) :
    (delete p s).1 = .ok ()
    ∧ (stat p (delete p s).2).1 = none
    ∧ (delete p (delete p s).2).1 = .ok () := by
  refine ⟨rfl, ?_, rfl⟩
  have hAnd : (s.world.isDir (pjoin s.cacheRoot (pyStrip p))
      && s.world.pexists (pjoin s.cacheRoot (pyStrip p)))
      = s.world.isDir (pjoin s.cacheRoot (pyStrip p)) := by
    cases hd : s.world.isDir (pjoin s.cacheRoot (pyStrip p))
    · rfl
    · simp [FS.pexists, hd]
  have hdel : (delete p s).2 = { s with
      world := purge (purge s.world (pjoin s.cacheRoot (pyStrip p)))
        (pjoin s.clientRoot (pyStrip (pyStrip p))),
      backendCalls := s.backendCalls + 1,
      index := cacheDelete s.index (pyStrip p) } := by
    unfold delete clientDelete bumpB clientResolve purge cachePathOf
    dsimp only
    rw [hAnd]
  rw [hdel]
  unfold stat
  dsimp only
  rw [cacheGet_delete_self]
  dsimp only
  have h1 : (purge s.world (pjoin s.cacheRoot (pyStrip p))).pexists
      (pjoin s.cacheRoot (pyStrip p)) = false :=
    pexists_purge_self s.world _ hwf
  have h2 : (purge (purge s.world (pjoin s.cacheRoot (pyStrip p)))
      (pjoin s.clientRoot (pyStrip (pyStrip p)))).pexists
      (pjoin s.cacheRoot (pyStrip p)) = false := by
    rw [Bool.eq_false_iff]
    intro hc
    exact (Bool.eq_false_iff.mp h1) (pexists_purge_of _ _ _ hc)
  rw [if_neg (by rw [show cachePathOf { s with world := purge (purge s.world (pjoin s.cacheRoot (pyStrip p))) (pjoin s.clientRoot (pyStrip (pyStrip p))), backendCalls := s.backendCalls + 1, index := cacheDelete s.index (pyStrip p), mirrorProbes := s.mirrorProbes + 1 } (pyStrip p) = pjoin s.cacheRoot (pyStrip p) from rfl, h2]; exact Bool.false_ne_true)]
  unfold clientStat bumpB clientResolve
  dsimp only
  have h3 : (purge (purge s.world (pjoin s.cacheRoot (pyStrip p)))
      (pjoin s.clientRoot (pyStrip (pyStrip p)))).pexists
      (pjoin s.clientRoot (pyStrip (pyStrip p))) = false :=
    pexists_purge_self _ _ (FSWF_purge s.world _ hwf)
  rw [h3]
  rfl

def exS6 : MState :=
  ⟨[rowOfEntry ⟨"x", false, 2, some "e", exDT⟩],
    ⟨[("c/x", [1, 2]), ("b/x", [1, 2])], ["c", "b"]⟩,
    "c", "b", false, exDT, exMd5, 0, 0⟩

theorem C6_delete_absent_and_tolerant_witness :
    FSWF exS6.world = true
    ∧ ((delete "x" exS6).1 = .ok ()
      ∧ (stat "x" (delete "x" exS6).2).1 = none
      ∧ (delete "x" (delete "x" exS6).2).1 = .ok ()) :=
  ⟨by decide, C6_delete_absent_and_tolerant exS6 "x" (by decide)⟩

theorem isDir_mkdirParents_mono (w : FS) (t q : String) (h : w.isDir q = true) :
    (w.mkdirParents t).isDir q = true := by
  rw [isDir_mkdirParents, h]
  rfl

theorem isDir_mkdirParents_chain (w : FS) (t : String) :
    ∀ d ∈ ancestorChain t, (w.mkdirParents t).isDir d = true := by
  intro d hd
  rw [isDir_mkdirParents]
  have hany : (ancestorChain t).any (· == d) = true := by
    rw [List.any_eq_true]
    exact ⟨d, hd, by simp⟩
  rw [hany]
  simp

/-- Success analysis of `ResourceManager.put_file`: on a `.ok` result the
returned metadata is built from the uploaded bytes, the mirror holds exactly
those bytes with its parent-directory chain created, the index gains exactly
the upserted row, the collide flag merely gets read (one backend call iff it
is unset, and when unset the backend copy also holds the bytes), and every
other manager field survives unchanged. -/
theorem put_file_ok_analysis (s : MState) (p : String) (data : List Nat)
    (m : ResourceMetadata) (h : (put_file p data s).1 = .ok m) :
    m = ⟨pyStrip p, false, (data.length : Int), some (s.md5fn data), s.now⟩
    ∧ (put_file p data s).2.index = cacheUpsert s.index (entryOfMeta m)
    ∧ (put_file p data s).2.cacheRoot = s.cacheRoot
    ∧ (put_file p data s).2.clientRoot = s.clientRoot
    ∧ (put_file p data s).2.rootsCollide = s.rootsCollide
    ∧ (put_file p data s).2.now = s.now
    ∧ (put_file p data s).2.md5fn = s.md5fn
    ∧ (put_file p data s).2.backendCalls
        = s.backendCalls + (if s.rootsCollide = true then 0 else 1)
    ∧ (put_file p data s).2.world.fileAt (pjoin s.cacheRoot (pyStrip p)) = some data
    ∧ (put_file p data s).2.world.isDir (pjoin s.cacheRoot (pyStrip p)) = false
    ∧ (∀ d ∈ ancestorChain (parentOf (pjoin s.cacheRoot (pyStrip p))),
        (put_file p data s).2.world.isDir d = true)
    ∧ (s.rootsCollide = false →
        (put_file p data s).2.world.fileAt
          (pjoin s.clientRoot (pyStrip (pyStrip p))) = some data) := by
  unfold put_file cachePathOf FS.copy2Into at h ⊢
  dsimp only at h ⊢
  by_cases hc1 : s.world.mkdirConflict (parentOf (pjoin s.cacheRoot (pyStrip p))) = true
  · rw [if_pos hc1] at h
    exact absurd h (by simp)
  · rw [if_neg hc1] at h ⊢
    first
    | dsimp only at h ⊢
    | skip
    by_cases hc2 : (s.world.mkdirParents (parentOf (pjoin s.cacheRoot
        (pyStrip p)))).isDir (pjoin s.cacheRoot (pyStrip p)) = true
    · rw [if_pos hc2] at h
      exact absurd h (by simp)
    · rw [if_neg hc2] at h ⊢
      first
      | dsimp only at h ⊢
      | skip
      have hch := isDir_mkdirParents_chain s.world
        (parentOf (pjoin s.cacheRoot (pyStrip p)))
      by_cases hcol : s.rootsCollide = true
      · rw [if_pos hcol] at h ⊢
        rw [isDir_writeFile, if_neg hc2] at h ⊢
        rw [fileAt_writeFile_self] at h ⊢
        first
        | dsimp only at h ⊢
        | skip
        rw [Except.ok.injEq] at h
        subst h
        refine ⟨rfl, rfl, rfl, rfl, rfl, rfl, rfl, ?_, ?_, ?_, ?_, ?_⟩
        · rw [if_pos hcol]
          rfl
        · exact fileAt_writeFile_self _ _ _
        · rw [isDir_writeFile]
          exact Bool.eq_false_iff.mpr hc2
        · intro d hd
          rw [isDir_writeFile]
          exact hch d hd
        · intro hf
          rw [hcol] at hf
          exact Bool.noConfusion hf
      · rw [if_neg hcol] at h ⊢
        unfold clientUploadFile bumpB clientResolve FS.copy2Into at h ⊢
        dsimp only at h ⊢
        by_cases hc3 : ((s.world.mkdirParents (parentOf (pjoin s.cacheRoot
            (pyStrip p)))).writeFile (pjoin s.cacheRoot (pyStrip p))
            data).mkdirConflict
            (parentOf (pjoin s.clientRoot (pyStrip (pyStrip p)))) = true
        · rw [if_pos hc3] at h
          exact absurd h (by simp)
        · rw [if_neg hc3] at h ⊢
          first
          | dsimp only at h ⊢
          | skip
          by_cases hc4 : (((s.world.mkdirParents (parentOf (pjoin s.cacheRoot
              (pyStrip p)))).writeFile (pjoin s.cacheRoot (pyStrip p))
              data).mkdirParents (parentOf (pjoin s.clientRoot
              (pyStrip (pyStrip p))))).isDir
              (pjoin s.clientRoot (pyStrip (pyStrip p))) = true
          · rw [if_pos hc4] at h
            exact absurd h (by simp)
          · rw [if_neg hc4] at h ⊢
            first
            | dsimp only at h ⊢
            | skip
            by_cases hc5 : ((((s.world.mkdirParents (parentOf (pjoin s.cacheRoot
                (pyStrip p)))).writeFile (pjoin s.cacheRoot (pyStrip p))
                data).mkdirParents (parentOf (pjoin s.clientRoot
                (pyStrip (pyStrip p))))).writeFile
                (pjoin s.clientRoot (pyStrip (pyStrip p))) data).isDir
                (pjoin s.cacheRoot (pyStrip p)) = true
            · rw [if_pos hc5] at h
              exact absurd h (by simp)
            · rw [if_neg hc5] at h ⊢
              have hmir : ((((s.world.mkdirParents (parentOf (pjoin s.cacheRoot
                  (pyStrip p)))).writeFile (pjoin s.cacheRoot (pyStrip p))
                  data).mkdirParents (parentOf (pjoin s.clientRoot
                  (pyStrip (pyStrip p))))).writeFile
                  (pjoin s.clientRoot (pyStrip (pyStrip p))) data).fileAt
                  (pjoin s.cacheRoot (pyStrip p)) = some data := by
                apply fileAt_writeFile_keep
                rw [fileAt_mkdirParents]
                exact fileAt_writeFile_self _ _ _
              rw [hmir] at h ⊢
              first
              | dsimp only at h ⊢
              | skip
              rw [Except.ok.injEq] at h
              subst h
              refine ⟨rfl, rfl, rfl, rfl, rfl, rfl, rfl, ?_, hmir, ?_, ?_, ?_⟩
              · rw [if_neg hcol]
              · exact Bool.eq_false_iff.mpr hc5
              · intro d hd
                rw [isDir_writeFile]
                apply isDir_mkdirParents_mono
                rw [isDir_writeFile]
                exact hch d hd
              · intro _
                exact fileAt_writeFile_self _ _ _

theorem hasFile_of_fileAt (w : FS) (p : String) (bs : List Nat)
    (h : w.fileAt p = some bs) : w.hasFile p = true := by
  unfold FS.fileAt at h
  unfold FS.hasFile
  cases hf : w.files.find? (fun pr => pr.1 == p) with
  | none => rw [hf] at h; exact Option.noConfusion h
  | some pr =>
    rw [List.any_eq_true]
    refine ⟨pr, List.mem_of_find?_eq_some hf, ?_⟩
    have hp := List.find?_some hf
    exact hp

/-- C2: after a successful `put_file(p, bytes)`, `get_file(p)` succeeds,
returns the mirror path (leaving the state untouched), that path holds exactly
`bytes`, and `stat(p)`'s etag is the digest computed directly over `bytes`. -/
theorem C2_put_get_stat_roundtrip (s : MState) (p : String) (data : List Nat)
    (m : ResourceMetadata) (h : (put_file p data s).1 = .ok m) :
    get_file p ((put_file p data s).2)
      = (.ok (pjoin s.cacheRoot (pyStrip p)), (put_file p data s).2)
    ∧ (put_file p data s).2.world.fileAt (pjoin s.cacheRoot (pyStrip p)) = some data
    ∧ ((stat p ((put_file p data s).2)).1).map (fun mm => mm.etag)
        = some (some (s.md5fn data)) := by
  obtain ⟨hm, hidx, hcr, hclr, hcol, hnow, hmd5, hbc, hfile, hnd, hchain, hup⟩ :=
    put_file_ok_analysis s p data m h
  have hpex : (put_file p data s).2.world.pexists (pjoin s.cacheRoot (pyStrip p))
      = true := by
    unfold FS.pexists
    rw [hasFile_of_fileAt _ _ _ hfile]
    rfl
  refine ⟨?_, hfile, ?_⟩
  · unfold get_file cachePathOf
    dsimp only
    rw [hcr]
    rw [if_pos hpex]
    rw [if_neg (by rw [hnd]; exact Bool.false_ne_true)]
  · have hg : cacheGet (put_file p data s).2.index (pyStrip p)
        = some (entryOfRow (rowOfEntry (entryOfMeta m))) := by
      rw [hidx]
      have h1 := cacheGet_upsert_self s.index (entryOfMeta m)
      have hpm : (entryOfMeta m).path = pyStrip p := by rw [hm]; rfl
      rw [hpm] at h1
      exact h1
    unfold stat
    dsimp only
    rw [hg]
    dsimp only
    rw [hm]
    rfl

/-- C7: a successful `put_file` writes the bytes into the mirror, creating
the whole parent-directory chain; the backend copy is written iff the
construction-time collide flag is unset (one backend call when unset, zero
when set); the call only reads the flag — it leaves it unchanged — and
`mkResourceManager` is the single place that computes it from the two roots. -/
theorem C7_put_file_mirror_backend_flag (s : MState) (p : String)
    (data : List Nat) (m : ResourceMetadata)
    (h : (put_file p data s).1 = .ok m) :
    (put_file p data s).2.world.fileAt (pjoin s.cacheRoot (pyStrip p)) = some data
    ∧ (∀ d ∈ ancestorChain (parentOf (pjoin s.cacheRoot (pyStrip p))),
        (put_file p data s).2.world.isDir d = true)
    ∧ (put_file p data s).2.backendCalls
        = s.backendCalls + (if s.rootsCollide = true then 0 else 1)
    ∧ (s.rootsCollide = false →
        (put_file p data s).2.world.fileAt (pjoin s.clientRoot (pyStrip p))
          = some data)
    ∧ (put_file p data s).2.rootsCollide = s.rootsCollide
    ∧ (∀ cr br n0 f0, (mkResourceManager cr br n0 f0).rootsCollide
        = (br == cr)) := by
  obtain ⟨hm, hidx, hcr, hclr, hcol, hnow, hmd5, hbc, hfile, hnd, hchain, hup⟩ :=
    put_file_ok_analysis s p data m h
  refine ⟨hfile, hchain, hbc, ?_, hcol, fun cr br n0 f0 => rfl⟩
  intro hf
  have hb := hup hf
  rwa [pyStrip_idem] at hb

instance {e a : Type} [DecidableEq e] [DecidableEq a] :
    DecidableEq (Except e a) := fun x y =>
  match x, y with
  | .error u, .error v =>
    if h : u = v then isTrue (congrArg Except.error h)
    else isFalse (fun hc => h (Except.error.inj hc))
  | .error _, .ok _ => isFalse (fun hc => Except.noConfusion hc)
  | .ok _, .error _ => isFalse (fun hc => Except.noConfusion hc)
  | .ok u, .ok v =>
    if h : u = v then isTrue (congrArg Except.ok h)
    else isFalse (fun hc => h (Except.ok.inj hc))

def exSP : MState := mkResourceManager "c" "b" exDT exMd5

def exM7 : ResourceMetadata := ⟨"f.txt", false, 2, some "h2", exDT⟩

theorem C2_put_get_stat_roundtrip_witness :
    ((put_file "f.txt" [7, 8] exSP).1 = .ok exM7)
    ∧ (get_file "f.txt" ((put_file "f.txt" [7, 8] exSP).2)
        = (.ok (pjoin exSP.cacheRoot (pyStrip "f.txt")),
            (put_file "f.txt" [7, 8] exSP).2)
      ∧ (put_file "f.txt" [7, 8] exSP).2.world.fileAt
          (pjoin exSP.cacheRoot (pyStrip "f.txt")) = some [7, 8]
      ∧ ((stat "f.txt" ((put_file "f.txt" [7, 8] exSP).2)).1).map
          (fun mm => mm.etag) = some (some (exSP.md5fn [7, 8]))) :=
  ⟨by decide, C2_put_get_stat_roundtrip exSP "f.txt" [7, 8] exM7 (by decide)⟩

theorem C7_put_file_mirror_backend_flag_witness :
    ((put_file "f.txt" [7, 8] exSP).1 = .ok exM7)
    ∧ ((put_file "f.txt" [7, 8] exSP).2.world.fileAt
        (pjoin exSP.cacheRoot (pyStrip "f.txt")) = some [7, 8]
      ∧ (∀ d ∈ ancestorChain (parentOf (pjoin exSP.cacheRoot (pyStrip "f.txt"))),
          (put_file "f.txt" [7, 8] exSP).2.world.isDir d = true)
      ∧ (put_file "f.txt" [7, 8] exSP).2.backendCalls
          = exSP.backendCalls + (if exSP.rootsCollide = true then 0 else 1)
      ∧ (exSP.rootsCollide = false →
          (put_file "f.txt" [7, 8] exSP).2.world.fileAt
            (pjoin exSP.clientRoot (pyStrip "f.txt")) = some [7, 8])
      ∧ (put_file "f.txt" [7, 8] exSP).2.rootsCollide = exSP.rootsCollide
      ∧ (∀ cr br n0 f0, (mkResourceManager cr br n0 f0).rootsCollide
          = (br == cr))) :=
  ⟨by decide, C7_put_file_mirror_backend_flag exSP "f.txt" [7, 8] exM7 (by decide)⟩

